import Mathlib

/-!
# Verification of the NVTWebEdition ingestion / fusion engine

Shallow embedding of `src/tbm_api_models.rs` (the multi-source GTFS
ingestion, caching and fusion engine) and proofs about it.

Modelling conventions:
* Rust `&str` / `String` values are modelled as `List Char` (`Str`).
  UTF-8 byte order and code-point order agree lexicographically, so the
  lexicographic comparison on `List Char` is faithful to Rust's string
  `Ord`.  Where Rust takes a *byte* length (`str::len`) we use the sum
  of the UTF-8 sizes of the characters (`utf8Len`).
* Rust machine integers are modelled as `Nat` / `Int`; `u64`
  `saturating_sub` is Nat subtraction, and the one place where `u32`
  arithmetic can overflow (`parse_gtfs_time`) reduces modulo `2^32`.
* Rust `f64` values are modelled by `F64`: a finite decimal, an
  infinity, or NaN.  `str::parse::<f64>` is modelled by `parseF64`,
  which follows the grammar accepted by Rust's float parser (optional
  sign; `inf` / `infinity` / `nan` case-insensitively; otherwise a
  decimal mantissa with optional fraction and optional `e`-exponent)
  and applies the boundary behaviour of IEEE round-to-nearest-even:
  magnitudes at most half the smallest subnormal round to zero and
  magnitudes at or past `2^1024 - 2^970` saturate to an infinity
  (`decZero` / `decOverflow`, exact integer comparisons).  In-range
  values keep their exact decimal, which agrees with the rounded
  double on sign and zero-ness — the only comparisons the source
  performs on parsed floats.
* `HashMap` is modelled as an association list with first-match lookup
  and replace-on-insert; `HashSet`-based dedup carries the list of seen
  keys.  Rust's stable `sort_by` / `sort_by_key` is modelled by
  `List.insertionSort`, which is also stable, and for the total
  preorders used here any two stable sorts agree.
* Functions doing IO (HTTP fetches, zip/CSV decoding, the system
  clock) are modelled by passing their results / the current instant as
  explicit arguments; CSV records are `List Str` (the fields of one
  data row, headers already consumed), `record.get i` is `List.get? i`.
-/

namespace NVT

/-- Model of Rust string slices: a list of characters. -/
abbrev Str := List Char

/-- Shorthand to write `Str` literals. -/
def str (s : String) : Str := s.data

/-- Lexicographic comparison of two strings, character by character;
faithful to Rust's `Ord` on `str` (byte order = code-point order). -/
def cmpStr : Str → Str → Ordering
  | [], [] => .eq
  | [], _ :: _ => .lt
  | _ :: _, [] => .gt
  | a :: as, b :: bs =>
    if a < b then .lt else if b < a then .gt else cmpStr as bs

/-- `a <= b` in Rust string order. -/
def strLe (a b : Str) : Prop := cmpStr a b ≠ .gt

/-- `a < b` in Rust string order. -/
def strLt (a b : Str) : Prop := cmpStr a b = .lt

instance : DecidableEq Ordering := fun a b => by
  cases a <;> cases b <;> first | exact isTrue rfl | exact isFalse (by simp)

instance (a b : Str) : Decidable (strLe a b) := by unfold strLe; infer_instance

instance (a b : Str) : Decidable (strLt a b) := by unfold strLt; infer_instance

theorem cmpStr_self (a : Str) : cmpStr a a = .eq := by
  induction a with
  | nil => rfl
  | cons c cs ih => simp [cmpStr, ih]

/-- Swapping the arguments of `cmpStr` swaps the result. -/
theorem cmpStr_swap (a b : Str) : cmpStr a b = (cmpStr b a).swap := by
  induction a generalizing b with
  | nil => cases b <;> rfl
  | cons c cs ih =>
    cases b with
    | nil => rfl
    | cons d ds =>
      by_cases h1 : c < d
      · have h2 : ¬ d < c := lt_asymm h1
        simp [cmpStr, h1, h2, Ordering.swap]
      · by_cases h2 : d < c
        · simp [cmpStr, h1, h2, Ordering.swap]
        · simp [cmpStr, h1, h2, ih]

theorem strLe_total (a b : Str) : strLe a b ∨ strLe b a := by
  unfold strLe
  rcases h : cmpStr a b with _ | _ | _
  · left; simp [h]
  · left; simp [h]
  · right
    have := cmpStr_swap a b
    rw [h] at this
    cases hb : cmpStr b a <;> simp [hb, Ordering.swap] at this ⊢

theorem cmpStr_eq_iff (a b : Str) : cmpStr a b = .eq ↔ a = b := by
  constructor
  · intro h
    induction a generalizing b with
    | nil => cases b with
      | nil => rfl
      | cons d ds => simp [cmpStr] at h
    | cons c cs ih =>
      cases b with
      | nil => simp [cmpStr] at h
      | cons d ds =>
        by_cases h1 : c < d
        · simp [cmpStr, h1] at h
        · by_cases h2 : d < c
          · simp [cmpStr, h1, h2] at h
          · have : c = d := le_antisymm (not_lt.mp h2) (not_lt.mp h1)
            subst this
            simp [cmpStr, h1] at h
            rw [ih _ h]
  · intro h; subst h; exact cmpStr_self a

theorem strLe_trans {a b c : Str} (h1 : strLe a b) (h2 : strLe b c) : strLe a c := by
  unfold strLe at *
  induction a generalizing b c with
  | nil => cases c <;> simp [cmpStr]
  | cons x xs ih =>
    cases b with
    | nil => simp [cmpStr] at h1
    | cons y ys =>
      cases c with
      | nil => simp [cmpStr] at h2
      | cons z zs =>
        by_cases hxy : x < y
        · by_cases hyz : y < z
          · have hxz : x < z := lt_trans hxy hyz
            simp [cmpStr, hxz]
          · by_cases hzy : z < y
            · simp [cmpStr, hyz, hzy] at h2
            · have : y = z := le_antisymm (not_lt.mp hzy) (not_lt.mp hyz)
              subst this
              simp [cmpStr, hxy]
        · by_cases hyx : y < x
          · simp [cmpStr, hxy, hyx] at h1
          · have : x = y := le_antisymm (not_lt.mp hyx) (not_lt.mp hxy)
            subst this
            by_cases hxz : x < z
            · simp [cmpStr, hxz]
            · by_cases hzx : z < x
              · simp [cmpStr, hzx] at h2 ⊢
                exact h2
              · have : x = z := le_antisymm (not_lt.mp hzx) (not_lt.mp hxz)
                subst this
                simp [cmpStr, hxz] at h1 h2 ⊢
                exact ih h1 h2

/-- `!(date < lo) && !(hi < date)` (the comparison done by the code) is
the inclusive-range membership the spec describes. -/
theorem not_lt_iff_le (a b : Str) : ¬ strLt a b ↔ strLe b a := by
  unfold strLt strLe
  rw [cmpStr_swap b a]
  cases h : cmpStr a b <;> simp [Ordering.swap]

/-- UTF-8 byte length of a modelled string (Rust `str::len`). -/
def utf8Len (s : Str) : Nat := (s.map Char.utf8Size).sum

/-! ## Splitting on a separator character (Rust `str::split(char)`) -/

/-- Rust `str::split(c)`: the parts between occurrences of `c`;
boundary or consecutive separators produce empty parts, and a string
without the separator yields itself as the only part. -/
def splitChar (c : Char) : Str → List Str
  | [] => [[]]
  | x :: xs =>
    if x = c then [] :: splitChar c xs
    else
      match splitChar c xs with
      | h :: t => (x :: h) :: t
      | [] => [[x]]

theorem splitChar_ne_nil (c : Char) (s : Str) : splitChar c s ≠ [] := by
  cases s with
  | nil => simp [splitChar]
  | cons x xs =>
    simp only [splitChar]
    split
    · simp
    · split
      · simp
      · simp

/-- A separator-free string is a single part. -/
theorem splitChar_no_sep {c : Char} {s : Str} (h : c ∉ s) :
    splitChar c s = [s] := by
  induction s with
  | nil => rfl
  | cons x xs ih =>
    simp only [List.mem_cons, not_or] at h
    have hx : ¬ x = c := fun he => h.1 he.symm
    simp [splitChar, hx, ih h.2]

/-- Splitting peels off a separator-free prefix before the first
separator. -/
theorem splitChar_append {c : Char} {a : Str} (w : Str) (h : c ∉ a) :
    splitChar c (a ++ c :: w) = a :: splitChar c w := by
  induction a with
  | nil => simp [splitChar]
  | cons x xs ih =>
    simp only [List.mem_cons, not_or] at h
    have hx : ¬ x = c := fun he => h.1 he.symm
    simp only [List.cons_append, splitChar, if_neg hx, List.append_eq]
    rw [ih h.2]

/-- The first part produced by `splitChar` is the maximal
separator-free prefix (Rust `split(c).next()`). -/
theorem splitChar_head (c : Char) (s : Str) :
    (splitChar c s).head? = some (s.takeWhile (fun x => x ≠ c)) := by
  induction s with
  | nil => rfl
  | cons x xs ih =>
    by_cases hx : x = c
    · subst hx; simp [splitChar, List.takeWhile]
    · simp only [splitChar, if_neg hx]
      rcases hs : splitChar c xs with _ | ⟨h, t⟩
      · exact absurd hs (splitChar_ne_nil c xs)
      · rw [hs] at ih
        simp only [List.head?] at ih
        simp [List.takeWhile, hx, Option.some.injEq] at ih ⊢
        exact ih

/-! ## Splitting on a substring pattern (Rust `str::split(&str)`) -/

/-- Index of the first occurrence of `pat` as a contiguous substring
of `s`, if any. -/
def findSub (pat : Str) : Str → Option Nat
  | [] => if pat.isPrefixOf ([] : Str) then some 0 else none
  | c :: rest =>
    if pat.isPrefixOf (c :: rest) then some 0
    else (findSub pat rest).map (· + 1)

/-- Rust `str::contains(pat)`. -/
def containsSub (pat s : Str) : Bool := (findSub pat s).isSome

theorem findSub_found {pat s : Str} {i : Nat}
    (h : findSub pat s = some i) : pat <+: s.drop i := by
  induction s generalizing i with
  | nil =>
    simp only [findSub] at h
    split at h
    · cases h
      simpa [← List.isPrefixOf_iff_prefix] using ‹pat.isPrefixOf ([] : Str) = true›
    · cases h
  | cons c rest ih =>
    simp only [findSub] at h
    split at h
    · cases h
      simpa [← List.isPrefixOf_iff_prefix] using ‹pat.isPrefixOf (c :: rest) = true›
    · rcases Option.map_eq_some'.mp h with ⟨j, hj, rfl⟩
      simpa using ih hj

theorem findSub_le_length {pat s : Str} {i : Nat}
    (h : findSub pat s = some i) : i ≤ s.length := by
  induction s generalizing i with
  | nil =>
    simp only [findSub] at h
    split at h <;> simp_all
  | cons c rest ih =>
    simp only [findSub] at h
    split at h
    · cases h; simp
    · rcases Option.map_eq_some'.mp h with ⟨j, hj, rfl⟩
      have := ih hj
      simp only [List.length_cons]
      omega

theorem findSub_bound {pat s : Str} {i : Nat}
    (h : findSub pat s = some i) : i + pat.length ≤ s.length := by
  have hp := (findSub_found h).length_le
  have hi := findSub_le_length h
  simp only [List.length_drop] at hp
  omega

/-- Rust `str::split(pat)` for a non-empty pattern: the parts between
non-overlapping occurrences of `pat`, scanning left to right.  (For an
empty pattern the code never calls this; we return `[s]`.) -/
def splitOnSub (pat : Str) (s : Str) : List Str :=
  if hp : pat = [] then [s]
  else
    match hf : findSub pat s with
    | none => [s]
    | some i => s.take i :: splitOnSub pat (s.drop (i + pat.length))
termination_by s.length
decreasing_by
  have hb := findSub_bound hf
  have hl : 1 ≤ pat.length := by
    cases pat with
    | nil => exact absurd rfl hp
    | cons _ _ => simp
  simp only [List.length_drop]
  omega

/-! ## Identifier normalization -/

/-- `NVTModels::extract_sncf_stop_id`: the segment after the last dash
(`rfind('-')`), or the whole id when there is no dash. -/
def extract_sncf_stop_id (s : Str) : Option Str :=
  if '-' ∈ s then some ((s.reverse.takeWhile (fun c => c ≠ '-')).reverse)
  else some s

/-- Decidable form of `c != ':'` reused by the splitting code. -/
def notColon (c : Char) : Bool := c ≠ ':'

/-- `NVTModels::extract_stop_id`: if the id contains `"BP:"`, the part
of the second `split("BP:")` segment before its first colon; else for a
colon-delimited id the second-to-last colon segment; else the id
itself. -/
def extract_stop_id (s : Str) : Option Str :=
  if containsSub (str "BP:") s then
    ((splitOnSub (str "BP:") s).get? 1).map (List.takeWhile notColon)
  else if ':' ∈ s then
    let parts := splitChar ':' s
    if h : 2 ≤ parts.length then
      some (parts.get ⟨parts.length - 2, by omega⟩)
    else some s
  else some s

/-- `NVTModels::extract_line_id`: the third colon-delimited segment. -/
def extract_line_id (s : Str) : Option Str := (splitChar ':' s).get? 2

/-! Unfolding equations for `splitOnSub`, and the behaviour of
`extract_stop_id` on an id containing the `"BP:"` marker. -/

theorem splitOnSub_eq_none {pat s : Str} (hp : pat ≠ [])
    (hf : findSub pat s = none) : splitOnSub pat s = [s] := by
  rw [splitOnSub.eq_def]
  rw [dif_neg hp]
  split <;> simp_all

theorem splitOnSub_eq_some {pat s : Str} {i : Nat} (hp : pat ≠ [])
    (hf : findSub pat s = some i) :
    splitOnSub pat s = s.take i :: splitOnSub pat (s.drop (i + pat.length)) := by
  rw [splitOnSub.eq_def]
  rw [dif_neg hp]
  split <;> simp_all

/-- The first `"BP:"` occurrence in `pre ++ "BP:" ++ z` sits exactly at
the end of a marker-free `pre` (the marker cannot straddle the
boundary, since its first two characters are not colons). -/
theorem findSub_BP (pre z : Str) (h : containsSub (str "BP:") pre = false) :
    findSub (str "BP:") (pre ++ (str "BP:" ++ z)) = some pre.length := by
  induction pre with
  | nil =>
    simp only [List.nil_append, List.length_nil]
    show findSub _ (str "BP:" ++ z) = some 0
    cases z <;> simp [findSub, str, List.isPrefixOf]
  | cons c cs ih =>
    rw [containsSub, findSub] at h
    cases hpre : (str "BP:").isPrefixOf (c :: cs) with
    | true => rw [if_pos hpre] at h; simp at h
    | false =>
      rw [if_neg (by simp [hpre])] at h
      have hcs : containsSub (str "BP:") cs = false := by
        rw [containsSub]
        cases hfs : findSub (str "BP:") cs with
        | none => rfl
        | some j => rw [hfs] at h; simp at h
      have hnp : ¬ (str "BP:").isPrefixOf (c :: (cs ++ (str "BP:" ++ z))) = true := by
        intro hP
        rcases cs with _ | ⟨d, cs'⟩
        · simp [str, List.isPrefixOf, Bool.and_eq_true, beq_iff_eq] at hP
        · simp only [List.cons_append, str, List.isPrefixOf, Bool.and_eq_true,
            beq_iff_eq] at hP
          obtain ⟨hb, hp2, hrest⟩ := hP
          rcases cs' with _ | ⟨e, cs''⟩
          · simp [List.isPrefixOf, Bool.and_eq_true, beq_iff_eq] at hrest
          · simp only [List.cons_append, List.isPrefixOf, Bool.and_eq_true,
              beq_iff_eq] at hrest
            subst hb; subst hp2
            rw [show e = ':' from hrest.1.symm] at hpre
            simp [str, List.isPrefixOf] at hpre
      rw [List.cons_append, findSub, if_neg hnp, ih hcs]
      simp

theorem splitOnSub_BP (pre z : Str) (h : containsSub (str "BP:") pre = false) :
    splitOnSub (str "BP:") (pre ++ (str "BP:" ++ z)) =
      pre :: splitOnSub (str "BP:") z := by
  rw [splitOnSub_eq_some (by decide) (findSub_BP pre z h)]
  congr 1
  · exact List.take_left pre _
  · have hlen : pre.length + (str "BP:").length = (pre ++ str "BP:").length := by
      simp
    rw [hlen, ← List.append_assoc, List.drop_left]

theorem takeWhile_colon {tok : Str} (rest : Str) (h : ':' ∉ tok) :
    (tok ++ ':' :: rest).takeWhile notColon = tok := by
  induction tok with
  | nil => simp [List.takeWhile, notColon]
  | cons x xs ih =>
    simp only [List.mem_cons, not_or] at h
    have hx : notColon x = true := by
      simp only [notColon, decide_eq_true_eq]
      exact fun he => h.1 he.symm
    simp only [List.cons_append, List.takeWhile, hx, List.append_eq]
    rw [ih h.2]

/-- The colon-free token right after the marker survives as the prefix
of the second `split("BP:")` segment before its first colon, provided
the token does not itself end in `"BP"` (which would merge with the
following colon into a spurious marker occurrence). -/
theorem splitOnSub_head_BP (tok rest : Str) (h2 : ':' ∉ tok)
    (h3 : tok.reverse.take 2 ≠ ['P', 'B']) :
    ((splitOnSub (str "BP:") (tok ++ ':' :: rest)).get? 0).map
      (List.takeWhile notColon) = some tok := by
  cases hf : findSub (str "BP:") (tok ++ ':' :: rest) with
  | none =>
    rw [splitOnSub_eq_none (by decide) hf]
    simp only [List.get?, Option.map_some']
    rw [takeWhile_colon rest h2]
  | some i =>
    have hpre := findSub_found hf
    have hi : tok.length + 1 ≤ i := by
      by_contra hcon
      have hile : i ≤ tok.length := by omega
      have hdrop : (tok ++ ':' :: rest).drop i = tok.drop i ++ ':' :: rest :=
        List.drop_append_of_le_length hile
      rw [hdrop] at hpre
      have hu : ':' ∉ tok.drop i := fun hm => h2 (List.mem_of_mem_drop hm)
      obtain ⟨t, ht⟩ := hpre
      rcases hud : tok.drop i with _ | ⟨a, _ | ⟨b, _ | ⟨c, u3⟩⟩⟩ <;>
          rw [hud] at ht hu
      · simp [str] at ht
      · simp only [str, List.cons_append, List.nil_append, List.cons.injEq] at ht
        obtain ⟨rfl, hP, _⟩ := ht
        simp at hP
      · simp only [str, List.cons_append, List.nil_append, List.cons.injEq] at ht
        obtain ⟨rfl, rfl, _⟩ := ht
        apply h3
        have : tok = tok.take i ++ ['B', 'P'] := by
          conv_lhs => rw [← List.take_append_drop i tok, hud]
        rw [this]
        simp
      · simp only [str, List.cons_append, List.cons.injEq] at ht
        obtain ⟨rfl, rfl, rfl, _⟩ := ht
        simp at hu
    have htake : (tok ++ ':' :: rest).take i =
        tok ++ ':' :: rest.take (i - tok.length - 1) := by
      rw [List.take_append_eq_append_take]
      rw [List.take_of_length_le (by omega)]
      congr 1
      obtain ⟨k, hk⟩ : ∃ k, i - tok.length = k + 1 :=
        ⟨i - tok.length - 1, by omega⟩
      rw [hk, List.take_succ_cons]
      simp
    rw [splitOnSub_eq_some (by decide) hf, htake]
    simp only [List.get?, Option.map_some']
    rw [takeWhile_colon _ h2]

/-- C8: identifier normalization.  The SNCF stop id keeps the segment
after the last dash; a ref containing the `"BP:"` marker yields the
token between the (first) marker and the next colon — stated for any
decomposition `pre ++ "BP:" ++ tok ++ ":" ++ rest` in which the prefix
does not already contain the marker, the token is colon-free, and the
token does not end in `"BP"` (so that "the token up to the next colon"
is well defined); and the line id is the third colon-delimited
segment. -/
theorem extract_ids_spec :
    extract_sncf_stop_id (str "StopPoint:OCETGV INOUI-87192039") =
      some (str "87192039") ∧
    (∀ pre tok rest : Str,
      containsSub (str "BP:") pre = false →
      ':' ∉ tok →
      tok.reverse.take 2 ≠ ['P', 'B'] →
      extract_stop_id (pre ++ (str "BP:" ++ (tok ++ ':' :: rest))) = some tok) ∧
    (∀ a b c rest : Str, ':' ∉ a → ':' ∉ b → ':' ∉ c →
      extract_line_id (a ++ ':' :: (b ++ ':' :: (c ++ ':' :: rest))) = some c ∧
      extract_line_id (a ++ ':' :: (b ++ ':' :: c)) = some c) ∧
    extract_line_id (str "A:B:42:C") = some (str "42") := by
  refine ⟨by decide, ?_, ?_, by decide⟩
  · intro pre tok rest h1 h2 h3
    have hc : containsSub (str "BP:")
        (pre ++ (str "BP:" ++ (tok ++ ':' :: rest))) = true := by
      rw [containsSub, findSub_BP pre _ h1]
      rfl
    rw [extract_stop_id, if_pos hc, splitOnSub_BP pre _ h1]
    exact splitOnSub_head_BP tok rest h2 h3
  · intro a b c rest ha hb hc
    constructor
    · rw [extract_line_id, splitChar_append _ ha, splitChar_append _ hb,
        splitChar_append _ hc]
      rfl
    · rw [extract_line_id, splitChar_append _ ha, splitChar_append _ hb,
        splitChar_no_sep hc]
      rfl

/-- Witness for `extract_ids_spec` at the spec's own examples. -/
theorem extract_ids_spec_witness :
    (containsSub (str "BP:") [] = false ∧ ':' ∉ str "12345" ∧
      (str "12345").reverse.take 2 ≠ ['P', 'B']) ∧
    extract_stop_id ([] ++ (str "BP:" ++ (str "12345" ++ ':' :: str "extra"))) =
      some (str "12345") ∧
    extract_line_id (str "A" ++ ':' :: (str "B" ++ ':' :: (str "42" ++ ':' :: str "C"))) =
      some (str "42") :=
  ⟨⟨by decide, by decide, by decide⟩,
    extract_ids_spec.2.1 [] (str "12345") (str "extra")
      (by decide) (by decide) (by decide),
    (extract_ids_spec.2.2.1 (str "A") (str "B") (str "42") (str "C")
      (by decide) (by decide) (by decide)).1⟩

end NVT

namespace NVT

/-! ## Numeric parsing (`str::parse::<u32>` and `str::parse::<f64>`) -/

/-- Numeric value of a digit string. -/
def digitsVal (s : Str) : Nat :=
  s.foldl (fun n c => n * 10 + (c.toNat - Char.toNat '0')) 0

/-- Rust `str::parse::<u32>`: an optional leading `+`, then one or
more decimal digits; out-of-range values are an error. -/
def parseU32 (s : Str) : Option Nat :=
  let t := match s with | '+' :: r => r | r => r
  if t ≠ [] ∧ t.all Char.isDigit then
    if digitsVal t < 2 ^ 32 then some (digitsVal t) else none
  else none

/-- Model of an `f64` value: a finite decimal `mantissa * 10 ^ exp10`
whose magnitude lies strictly between the round-to-zero and
round-to-infinity cutoffs of IEEE double rounding (or exactly zero, as
`fin 0 0`), an infinity, or NaN.  A finite value is kept as its exact
decimal: within that range the rounded double agrees with the exact
decimal on sign and on zero-ness, which is all the program compares. -/
inductive F64 where
  | fin (mantissa : Int) (exp10 : Int)
  | inf
  | neginf
  | nan
deriving DecidableEq

/-- Rust `x != 0.0` on a parsed value: false only for (positive or
negative) zero; the infinities and NaN compare non-equal to zero. -/
def f64Ne0 : F64 → Bool
  | .fin m _ => m ≠ 0
  | _ => true

/-- The exact decimal `m * 10 ^ ex` rounds to zero under IEEE
round-to-nearest (ties to even): its magnitude is at most half the
smallest subnormal double, `2 ^ (-1075)` (at exactly the midpoint the
tie goes to the even candidate, zero).  Stated as an exact integer
comparison: for `ex < 0`, `|m| * 10 ^ ex ≤ 2 ^ (-1075)` iff
`|m| * 2 ^ 1075 ≤ 10 ^ (-ex)`; for `ex ≥ 0` a non-zero decimal has
magnitude at least 1. -/
def decZero (m ex : Int) : Bool :=
  m = 0 ∨ (ex < 0 ∧ m.natAbs * 2 ^ 1075 ≤ 10 ^ (-ex).toNat)

/-- The exact decimal `m * 10 ^ ex` rounds past the largest finite
double to an infinity: its magnitude is at least
`2 ^ 1024 - 2 ^ 970`, the midpoint between the largest finite double
`(2 ^ 53 - 1) * 2 ^ 971` and `2 ^ 1024` (the tie at the midpoint goes
to the even candidate `2 ^ 1024`, i.e. overflows). -/
def decOverflow (m ex : Int) : Bool :=
  if 0 ≤ ex then (2 ^ 1024 - 2 ^ 970 : Nat) ≤ m.natAbs * 10 ^ ex.toNat
  else (2 ^ 1024 - 2 ^ 970) * 10 ^ (-ex).toNat ≤ m.natAbs

/-- Rust `str::parse::<f64>`: optional sign; `inf` / `infinity` /
`nan` case-insensitively; otherwise a decimal mantissa (digits with an
optional fraction, at least one digit overall) with an optional
`e`/`E` exponent.  The parser never errors on out-of-range magnitudes:
following IEEE round-to-nearest-even it saturates them — a literal
whose magnitude is at most `2 ^ (-1075)` parses to (signed) zero, and
one at or past `2 ^ 1024 - 2 ^ 970` parses to an infinity.  In-range
values are kept as their exact decimal (see `F64`). -/
def parseF64 (s : Str) : Option F64 :=
  let (neg, t) :=
    match s with
    | '-' :: r => (true, r)
    | '+' :: r => (false, r)
    | r => (false, r)
  let tl := t.map Char.toLower
  if tl = str "inf" ∨ tl = str "infinity" then
    some (if neg then .neginf else .inf)
  else if tl = str "nan" then some .nan
  else
    let mant := t.takeWhile (fun c => c ≠ 'e' ∧ c ≠ 'E')
    let erest := t.dropWhile (fun c => c ≠ 'e' ∧ c ≠ 'E')
    let ipart := mant.takeWhile (fun c => c ≠ '.')
    let frest := mant.dropWhile (fun c => c ≠ '.')
    let fpartOk : Option Str :=
      match frest with
      | [] => some []
      | '.' :: f => some f
      | _ => none
    match fpartOk with
    | none => none
    | some fpart =>
      if ipart.all Char.isDigit ∧ fpart.all Char.isDigit ∧
          (ipart ≠ [] ∨ fpart ≠ []) then
        let expVal : Option Int :=
          match erest with
          | [] => some 0
          | _ :: er =>
            let (eneg, ed) :=
              match er with
              | '-' :: r => (true, r)
              | '+' :: r => (false, r)
              | r => (false, r)
            if ed ≠ [] ∧ ed.all Char.isDigit then
              some (if eneg then -(digitsVal ed : Int) else (digitsVal ed : Int))
            else none
        match expVal with
        | none => none
        | some e =>
          let m : Int := digitsVal (ipart ++ fpart)
          let ex : Int := e - fpart.length
          if decZero m ex then some (.fin 0 0)
          else if decOverflow m ex then
            some (if neg then .neginf else .inf)
          else some (.fin (if neg then -m else m) ex)
      else none

/-! ## Association lists modelling `HashMap` -/

/-- `HashMap::get`. -/
def alookup {α : Type} (m : List (Str × α)) (k : Str) : Option α :=
  (m.find? (fun p => p.1 = k)).map (·.2)

/-- Key membership test. -/
def hasKey {α : Type} (m : List (Str × α)) (k : Str) : Bool :=
  m.any (fun p => p.1 = k)

/-- `HashMap::insert`: replaces the value at an existing key, else adds
a new binding. -/
def ainsert {α : Type} (m : List (Str × α)) (k : Str) (v : α) :
    List (Str × α) :=
  if hasKey m k then
    m.map (fun p => if p.1 = k then (k, v) else p)
  else m ++ [(k, v)]

theorem hasKey_ainsert {α : Type} (m : List (Str × α)) (k k' : Str) (v : α) :
    hasKey (ainsert m k v) k' = true ↔ hasKey m k' = true ∨ k' = k := by
  unfold ainsert
  split
  · rename_i hmk
    unfold hasKey at hmk ⊢
    rw [List.any_map]
    constructor
    · intro h
      rcases List.any_eq_true.mp h with ⟨p, hp, hcond⟩
      simp only [Function.comp] at hcond
      by_cases hpk : p.1 = k
      · simp only [if_pos hpk, decide_eq_true_eq] at hcond
        right; exact hcond.symm
      · simp only [if_neg hpk, decide_eq_true_eq] at hcond
        left; exact List.any_eq_true.mpr ⟨p, hp, by simp [hcond]⟩
    · intro h
      rcases h with h | h
      · rcases List.any_eq_true.mp h with ⟨p, hp, hcond⟩
        simp only [decide_eq_true_eq] at hcond
        refine List.any_eq_true.mpr ⟨p, hp, ?_⟩
        simp only [Function.comp]
        by_cases hpk : p.1 = k
        · simp only [if_pos hpk, decide_eq_true_eq]
          exact hpk.symm.trans hcond
        · simp only [if_neg hpk, decide_eq_true_eq]
          exact hcond
      · subst h
        rcases List.any_eq_true.mp hmk with ⟨p, hp, hcond⟩
        simp only [decide_eq_true_eq] at hcond
        refine List.any_eq_true.mpr ⟨p, hp, ?_⟩
        simp only [Function.comp, if_pos hcond]
        simp
  · unfold hasKey
    rw [List.any_append]
    simp only [List.any_cons, List.any_nil, Bool.or_false, Bool.or_eq_true,
      decide_eq_true_eq]
    exact or_congr Iff.rfl ⟨Eq.symm, Eq.symm⟩

/-! ## Static table parsers: routes.txt

The CSV reader (headers consumed, per-record `Ok` filtering) is an
external collaborator: the parsers receive the successfully decoded
data records, each a list of fields; `record.get(i)` is `List.get? i`.
Rust `str::len` is the UTF-8 byte length `utf8Len`, and
`!s.is_empty()` is `s ≠ []`. -/

/-- `NVTModels::parse_transgironde_routes`: per record with a route
id, store the agency id when field 1 is non-empty, and the route color
when field 7 is non-empty of byte length 6.  Returns the route→color
and route→agency maps. -/
def parse_transgironde_routes (records : List (List Str)) :
    List (Str × Str) × List (Str × Str) :=
  records.foldl
    (fun acc r =>
      match r.get? 0 with
      | none => acc
      | some route_id =>
        let agencies :=
          match r.get? 1 with
          | some agency_id =>
            if agency_id ≠ [] then ainsert acc.2 route_id agency_id else acc.2
          | none => acc.2
        let colors :=
          match r.get? 7 with
          | some route_color =>
            if route_color ≠ [] ∧ utf8Len route_color = 6 then
              ainsert acc.1 route_id route_color
            else acc.1
          | none => acc.1
        (colors, agencies))
    ([], [])

/-- `NVTModels::parse_sncf_routes`: route→color map from fields 0
(route id) and 7 (color), keeping non-empty colors of byte length 6. -/
def parse_sncf_routes (records : List (List Str)) : List (Str × Str) :=
  records.foldl
    (fun m r =>
      match r.get? 0, r.get? 7 with
      | some route_id, some route_color =>
        if route_color ≠ [] ∧ utf8Len route_color = 6 then
          ainsert m route_id route_color
        else m
      | _, _ => m)
    []

/-- The routes.txt section of `NVTModels::download_and_read_gtfs`
(TBM): route→color map from fields 0 (route id) and 5 (color), keeping
non-empty colors of byte length 6. -/
def download_and_read_gtfs_routes (records : List (List Str)) :
    List (Str × Str) :=
  records.foldl
    (fun m r =>
      match r.get? 0, r.get? 5 with
      | some route_id, some route_color =>
        if route_color ≠ [] ∧ utf8Len route_color = 6 then
          ainsert m route_id route_color
        else m
      | _, _ => m)
    []

/-- Modelled from the spec: a "6-character hexadecimal color", the
condition the claim says route retention requires. -/
def specHexColor6 (c : Str) : Bool :=
  c.length = 6 ∧ c.all (fun ch =>
    ch.isDigit ∨ ('a' ≤ ch ∧ ch ≤ 'f') ∨ ('A' ≤ ch ∧ ch ≤ 'F'))

/-- The record-level condition under which the color of record `r` is
inserted: a route id at `idIdx` and a non-empty color of byte length 6
at `colorIdx`. -/
def colorKeptCond (idIdx colorIdx : Nat) (r : List Str) (rid : Str) : Prop :=
  r.get? idIdx = some rid ∧
    ∃ c, r.get? colorIdx = some c ∧ c ≠ [] ∧ utf8Len c = 6

theorem hasKey_parse_sncf_routes_aux (records : List (List Str))
    (m : List (Str × Str)) (rid : Str) :
    hasKey (records.foldl
      (fun m r =>
        match r.get? 0, r.get? 7 with
        | some route_id, some route_color =>
          if route_color ≠ [] ∧ utf8Len route_color = 6 then
            ainsert m route_id route_color
          else m
        | _, _ => m) m) rid = true ↔
      hasKey m rid = true ∨ ∃ r ∈ records, colorKeptCond 0 7 r rid := by
  induction records generalizing m with
  | nil => simp
  | cons r rs ih =>
    rw [List.foldl_cons, ih]
    have hstep : hasKey
        (match r.get? 0, r.get? 7 with
          | some route_id, some route_color =>
            if route_color ≠ [] ∧ utf8Len route_color = 6 then
              ainsert m route_id route_color
            else m
          | _, _ => m) rid = true ↔
        hasKey m rid = true ∨ colorKeptCond 0 7 r rid := by
      unfold colorKeptCond
      rcases h0 : r.get? 0 with _ | route_id
      · refine ⟨Or.inl, ?_⟩
        rintro (h | ⟨hc0, -⟩)
        · exact h
        · exact Option.noConfusion hc0
      · rcases h7 : r.get? 7 with _ | route_color
        · refine ⟨Or.inl, ?_⟩
          rintro (h | ⟨-, c, hc7, -⟩)
          · exact h
          · exact Option.noConfusion hc7
        · show hasKey (if route_color ≠ [] ∧ utf8Len route_color = 6 then
              ainsert m route_id route_color else m) rid = true ↔ _
          by_cases hc : route_color ≠ [] ∧ utf8Len route_color = 6
          · rw [if_pos hc, hasKey_ainsert]
            constructor
            · rintro (h | rfl)
              · exact Or.inl h
              · exact Or.inr ⟨rfl, route_color, rfl, hc⟩
            · rintro (h | ⟨heq, c, hceq, -⟩)
              · exact Or.inl h
              · exact Or.inr (Option.some.inj heq).symm
          · rw [if_neg hc]
            constructor
            · exact Or.inl
            · rintro (h | ⟨-, c, hceq, hc2, hc3⟩)
              · exact h
              · cases Option.some.inj hceq
                exact absurd ⟨hc2, hc3⟩ hc
    rw [hstep]
    constructor
    · rintro ((h | hr) | ⟨r2, hr2, hc2⟩)
      · exact Or.inl h
      · exact Or.inr ⟨r, List.mem_cons_self r rs, hr⟩
      · exact Or.inr ⟨r2, List.mem_cons_of_mem r hr2, hc2⟩
    · rintro (h | ⟨r2, hr2, hc2⟩)
      · exact Or.inl (Or.inl h)
      · rcases List.mem_cons.mp hr2 with rfl | hr3
        · exact Or.inl (Or.inr hc2)
        · exact Or.inr ⟨r2, hr3, hc2⟩

theorem hasKey_tbm_routes_aux (records : List (List Str))
    (m : List (Str × Str)) (rid : Str) :
    hasKey (records.foldl
      (fun m r =>
        match r.get? 0, r.get? 5 with
        | some route_id, some route_color =>
          if route_color ≠ [] ∧ utf8Len route_color = 6 then
            ainsert m route_id route_color
          else m
        | _, _ => m) m) rid = true ↔
      hasKey m rid = true ∨ ∃ r ∈ records, colorKeptCond 0 5 r rid := by
  induction records generalizing m with
  | nil => simp
  | cons r rs ih =>
    rw [List.foldl_cons, ih]
    have hstep : hasKey
        (match r.get? 0, r.get? 5 with
          | some route_id, some route_color =>
            if route_color ≠ [] ∧ utf8Len route_color = 6 then
              ainsert m route_id route_color
            else m
          | _, _ => m) rid = true ↔
        hasKey m rid = true ∨ colorKeptCond 0 5 r rid := by
      unfold colorKeptCond
      rcases h0 : r.get? 0 with _ | route_id
      · refine ⟨Or.inl, ?_⟩
        rintro (h | ⟨hc0, -⟩)
        · exact h
        · exact Option.noConfusion hc0
      · rcases h5 : r.get? 5 with _ | route_color
        · refine ⟨Or.inl, ?_⟩
          rintro (h | ⟨-, c, hc5, -⟩)
          · exact h
          · exact Option.noConfusion hc5
        · show hasKey (if route_color ≠ [] ∧ utf8Len route_color = 6 then
              ainsert m route_id route_color else m) rid = true ↔ _
          by_cases hc : route_color ≠ [] ∧ utf8Len route_color = 6
          · rw [if_pos hc, hasKey_ainsert]
            constructor
            · rintro (h | rfl)
              · exact Or.inl h
              · exact Or.inr ⟨rfl, route_color, rfl, hc⟩
            · rintro (h | ⟨heq, c, hceq, -⟩)
              · exact Or.inl h
              · exact Or.inr (Option.some.inj heq).symm
          · rw [if_neg hc]
            constructor
            · exact Or.inl
            · rintro (h | ⟨-, c, hceq, hc2, hc3⟩)
              · exact h
              · cases Option.some.inj hceq
                exact absurd ⟨hc2, hc3⟩ hc
    rw [hstep]
    constructor
    · rintro ((h | hr) | ⟨r2, hr2, hc2⟩)
      · exact Or.inl h
      · exact Or.inr ⟨r, List.mem_cons_self r rs, hr⟩
      · exact Or.inr ⟨r2, List.mem_cons_of_mem r hr2, hc2⟩
    · rintro (h | ⟨r2, hr2, hc2⟩)
      · exact Or.inl (Or.inl h)
      · rcases List.mem_cons.mp hr2 with rfl | hr3
        · exact Or.inl (Or.inr hc2)
        · exact Or.inr ⟨r2, hr3, hc2⟩

theorem hasKey_transgironde_routes_aux (records : List (List Str))
    (m : List (Str × Str) × List (Str × Str)) (rid : Str) :
    hasKey (records.foldl
      (fun acc r =>
        match r.get? 0 with
        | none => acc
        | some route_id =>
          let agencies :=
            match r.get? 1 with
            | some agency_id =>
              if agency_id ≠ [] then ainsert acc.2 route_id agency_id else acc.2
            | none => acc.2
          let colors :=
            match r.get? 7 with
            | some route_color =>
              if route_color ≠ [] ∧ utf8Len route_color = 6 then
                ainsert acc.1 route_id route_color
              else acc.1
            | none => acc.1
          (colors, agencies)) m).1 rid = true ↔
      hasKey m.1 rid = true ∨ ∃ r ∈ records, colorKeptCond 0 7 r rid := by
  induction records generalizing m with
  | nil => simp
  | cons r rs ih =>
    rw [List.foldl_cons, ih]
    have hstep : hasKey
        ((match r.get? 0 with
          | none => m
          | some route_id =>
            let agencies :=
              match r.get? 1 with
              | some agency_id =>
                if agency_id ≠ [] then ainsert m.2 route_id agency_id else m.2
              | none => m.2
            let colors :=
              match r.get? 7 with
              | some route_color =>
                if route_color ≠ [] ∧ utf8Len route_color = 6 then
                  ainsert m.1 route_id route_color
                else m.1
              | none => m.1
            (colors, agencies)) : List (Str × Str) × List (Str × Str)).1
          rid = true ↔
        hasKey m.1 rid = true ∨ colorKeptCond 0 7 r rid := by
      unfold colorKeptCond
      rcases h0 : r.get? 0 with _ | route_id
      · refine ⟨Or.inl, ?_⟩
        rintro (h | ⟨hc0, -⟩)
        · exact h
        · exact Option.noConfusion hc0
      · rcases h7 : r.get? 7 with _ | route_color
        · show hasKey m.1 rid = true ↔ _
          refine ⟨Or.inl, ?_⟩
          rintro (h | ⟨-, c, hc7, -⟩)
          · exact h
          · exact Option.noConfusion hc7
        · show hasKey (if route_color ≠ [] ∧ utf8Len route_color = 6 then
              ainsert m.1 route_id route_color else m.1) rid = true ↔ _
          by_cases hc : route_color ≠ [] ∧ utf8Len route_color = 6
          · rw [if_pos hc, hasKey_ainsert]
            constructor
            · rintro (h | rfl)
              · exact Or.inl h
              · exact Or.inr ⟨rfl, route_color, rfl, hc⟩
            · rintro (h | ⟨heq, c, hceq, -⟩)
              · exact Or.inl h
              · exact Or.inr (Option.some.inj heq).symm
          · rw [if_neg hc]
            constructor
            · exact Or.inl
            · rintro (h | ⟨-, c, hceq, hc2, hc3⟩)
              · exact h
              · cases Option.some.inj hceq
                exact absurd ⟨hc2, hc3⟩ hc
    rw [hstep]
    constructor
    · rintro ((h | hr) | ⟨r2, hr2, hc2⟩)
      · exact Or.inl h
      · exact Or.inr ⟨r, List.mem_cons_self r rs, hr⟩
      · exact Or.inr ⟨r2, List.mem_cons_of_mem r hr2, hc2⟩
    · rintro (h | ⟨r2, hr2, hc2⟩)
      · exact Or.inl (Or.inl h)
      · rcases List.mem_cons.mp hr2 with rfl | hr3
        · exact Or.inl (Or.inr hc2)
        · exact Or.inr ⟨r2, hr3, hc2⟩

/-- C3 (amended): a route id appears in the route→color map iff some
record carries it together with a non-empty color field of byte length
exactly 6 — hexadecimal validity of the color is NOT checked, for any
of the three parsers (TransGironde and SNCF read the color at index 7,
TBM at index 5). -/
theorem route_color_kept_iff (records : List (List Str)) (rid : Str) :
    (hasKey (parse_transgironde_routes records).1 rid = true ↔
      ∃ r ∈ records, colorKeptCond 0 7 r rid) ∧
    (hasKey (parse_sncf_routes records) rid = true ↔
      ∃ r ∈ records, colorKeptCond 0 7 r rid) ∧
    (hasKey (download_and_read_gtfs_routes records) rid = true ↔
      ∃ r ∈ records, colorKeptCond 0 5 r rid) := by
  refine ⟨?_, ?_, ?_⟩
  · rw [parse_transgironde_routes, hasKey_transgironde_routes_aux]
    simp [hasKey]
  · rw [parse_sncf_routes, hasKey_parse_sncf_routes_aux]
    simp [hasKey]
  · rw [download_and_read_gtfs_routes, hasKey_tbm_routes_aux]
    simp [hasKey]

/-- Counterexample to C3 as stated: the color `"ZZZZZZ"` is not
hexadecimal, yet all three parsers insert the route carrying it. -/
theorem route_color_hex_counterexample :
    specHexColor6 (str "ZZZZZZ") = false ∧
    alookup (parse_transgironde_routes
        [[str "R1", [], [], [], [], [], [], str "ZZZZZZ"]]).1 (str "R1") =
      some (str "ZZZZZZ") ∧
    alookup (parse_sncf_routes
        [[str "R1", [], [], [], [], [], [], str "ZZZZZZ"]]) (str "R1") =
      some (str "ZZZZZZ") ∧
    alookup (download_and_read_gtfs_routes
        [[str "R1", [], [], [], [], str "ZZZZZZ"]]) (str "R1") =
      some (str "ZZZZZZ") := by
  decide

/-! ## Static table parsers: stops.txt -/

/-- Loop body of `NVTModels::parse_transgironde_stops` for one CSV
record: fields 0/2/5/6/9 must be present, `location_type` (field 9)
must not be `"1"`, both coordinates must parse as `f64`, and both
values must compare non-equal to `0.0`. -/
def tgStopRow (r : List Str) : Option (Str × Str × F64 × F64) :=
  match r.get? 0, r.get? 2, r.get? 5, r.get? 6, r.get? 9 with
  | some stop_id, some stop_name, some lat_str, some lon_str,
      some location_type =>
    if location_type = str "1" then none
    else
      match parseF64 lat_str, parseF64 lon_str with
      | some lat, some lon =>
        if f64Ne0 lat ∧ f64Ne0 lon then some (stop_id, stop_name, lat, lon)
        else none
      | _, _ => none
  | _, _, _, _, _ => none

/-- `NVTModels::parse_transgironde_stops`. -/
def parse_transgironde_stops (records : List (List Str)) :
    List (Str × Str × F64 × F64) :=
  records.filterMap tgStopRow

/-- Loop body of `NVTModels::parse_sncf_stops` for one record: fields
0/2/4/5, `location_type` read from field 9 with default `"0"`, the
same non-`"1"` / parse / non-zero checks, and the stop id simplified
through `extract_sncf_stop_id`. -/
def sncfStopRow (r : List Str) : Option (Str × Str × F64 × F64) :=
  match r.get? 0, r.get? 2, r.get? 4, r.get? 5 with
  | some stop_id, some stop_name, some lat_str, some lon_str =>
    if (r.get? 9).getD (str "0") = str "1" then none
    else
      match parseF64 lat_str, parseF64 lon_str with
      | some lat, some lon =>
        if f64Ne0 lat ∧ f64Ne0 lon then
          match extract_sncf_stop_id stop_id with
          | some simplified => some (simplified, stop_name, lat, lon)
          | none => none
        else none
      | _, _ => none
  | _, _, _, _ => none

/-- `NVTModels::parse_sncf_stops`. -/
def parse_sncf_stops (records : List (List Str)) :
    List (Str × Str × F64 × F64) :=
  records.filterMap sncfStopRow

/-- Loop body of the stops.txt section of
`NVTModels::download_and_read_gtfs` (TBM) for one record: fields
0/2/4/5; kept whenever both coordinates parse — no `location_type`
check and no non-zero check. -/
def tbmStopRow (r : List Str) : Option (Str × Str × F64 × F64) :=
  match r.get? 0, r.get? 2, r.get? 4, r.get? 5 with
  | some stop_id, some stop_name, some lat_str, some lon_str =>
    match parseF64 lat_str, parseF64 lon_str with
    | some lat, some lon => some (stop_id, stop_name, lat, lon)
    | _, _ => none
  | _, _, _, _ => none

/-- The stops.txt section of `NVTModels::download_and_read_gtfs`. -/
def download_and_read_gtfs_stops (records : List (List Str)) :
    List (Str × Str × F64 × F64) :=
  records.filterMap tbmStopRow

/-- Modelled from the spec: a coordinate field that "parses as a
finite non-zero float" (the claim's retention condition). -/
def specFiniteNonZero (s : Str) : Bool :=
  match parseF64 s with
  | some (.fin m _) => m ≠ 0
  | _ => false

theorem filterMap_singleton_ne_nil {α β : Type} (f : α → Option β) (r : α) :
    List.filterMap f [r] ≠ [] ↔ ∃ x, f r = some x := by
  cases h : f r <;> simp [List.filterMap_cons, List.filterMap_nil, h]

theorem extract_sncf_stop_id_isSome (s : Str) :
    ∃ t, extract_sncf_stop_id s = some t := by
  unfold extract_sncf_stop_id
  split <;> exact ⟨_, rfl⟩

/-- C2 (amended): per-record retention of the three stops parsers.
The regional parser keeps a record iff fields 0/2/5/6/9 are present,
`location_type` is not `"1"`, and both coordinates parse as values
comparing non-equal to `0.0` (the Rust float grammar also admits
infinities and NaN, which pass the non-zero comparison); the national
parser does the same with fields 0/2/4/5 and a missing `location_type`
defaulting to `"0"`; the urban (TBM) parser keeps every record whose
coordinates parse, with no non-zero and no parent-station check. -/
theorem stops_kept_iff (r : List Str) :
    (parse_transgironde_stops [r] ≠ [] ↔
      ∃ sid nm latS lonS loc, r.get? 0 = some sid ∧ r.get? 2 = some nm ∧
        r.get? 5 = some latS ∧ r.get? 6 = some lonS ∧ r.get? 9 = some loc ∧
        loc ≠ str "1" ∧
        ∃ lat lon, parseF64 latS = some lat ∧ parseF64 lonS = some lon ∧
          f64Ne0 lat = true ∧ f64Ne0 lon = true) ∧
    (parse_sncf_stops [r] ≠ [] ↔
      ∃ sid nm latS lonS, r.get? 0 = some sid ∧ r.get? 2 = some nm ∧
        r.get? 4 = some latS ∧ r.get? 5 = some lonS ∧
        (r.get? 9).getD (str "0") ≠ str "1" ∧
        ∃ lat lon, parseF64 latS = some lat ∧ parseF64 lonS = some lon ∧
          f64Ne0 lat = true ∧ f64Ne0 lon = true) ∧
    (download_and_read_gtfs_stops [r] ≠ [] ↔
      ∃ sid nm latS lonS, r.get? 0 = some sid ∧ r.get? 2 = some nm ∧
        r.get? 4 = some latS ∧ r.get? 5 = some lonS ∧
        ∃ lat lon, parseF64 latS = some lat ∧ parseF64 lonS = some lon) := by
  refine ⟨?_, ?_, ?_⟩
  · rw [parse_transgironde_stops, filterMap_singleton_ne_nil]
    constructor
    · rintro ⟨x, hx⟩
      unfold tgStopRow at hx
      rcases h0 : r.get? 0 with _ | sid <;> rw [h0] at hx
      · exact Option.noConfusion hx
      rcases h2 : r.get? 2 with _ | nm <;> rw [h2] at hx
      · exact Option.noConfusion hx
      rcases h5 : r.get? 5 with _ | latS <;> rw [h5] at hx
      · exact Option.noConfusion hx
      rcases h6 : r.get? 6 with _ | lonS <;> rw [h6] at hx
      · exact Option.noConfusion hx
      rcases h9 : r.get? 9 with _ | loc <;> rw [h9] at hx
      · exact Option.noConfusion hx
      replace hx : (if loc = str "1" then none
          else
            match parseF64 latS, parseF64 lonS with
            | some lat, some lon =>
              if f64Ne0 lat ∧ f64Ne0 lon then some (sid, nm, lat, lon)
              else none
            | _, _ => none) = some x := hx
      by_cases hloc : loc = str "1"
      · rw [if_pos hloc] at hx
        exact Option.noConfusion hx
      rw [if_neg hloc] at hx
      rcases hlat : parseF64 latS with _ | lat <;> rw [hlat] at hx
      · exact Option.noConfusion hx
      rcases hlon : parseF64 lonS with _ | lon <;> rw [hlon] at hx
      · exact Option.noConfusion hx
      replace hx : (if f64Ne0 lat ∧ f64Ne0 lon then some (sid, nm, lat, lon)
          else none) = some x := hx
      by_cases hz : f64Ne0 lat = true ∧ f64Ne0 lon = true
      · exact ⟨sid, nm, latS, lonS, loc, rfl, rfl, rfl, rfl, rfl, hloc,
          lat, lon, hlat, hlon, hz.1, hz.2⟩
      · rw [if_neg hz] at hx
        exact Option.noConfusion hx
    · rintro ⟨sid, nm, latS, lonS, loc, h0, h2, h5, h6, h9, hloc,
        lat, lon, hlat, hlon, hz1, hz2⟩
      refine ⟨(sid, nm, lat, lon), ?_⟩
      unfold tgStopRow
      rw [h0, h2, h5, h6, h9]
      show (if loc = str "1" then none
        else
          match parseF64 latS, parseF64 lonS with
          | some lat, some lon =>
            if f64Ne0 lat ∧ f64Ne0 lon then some (sid, nm, lat, lon)
            else none
          | _, _ => none) = some (sid, nm, lat, lon)
      rw [if_neg hloc, hlat, hlon]
      show (if f64Ne0 lat ∧ f64Ne0 lon then some (sid, nm, lat, lon)
        else none) = some (sid, nm, lat, lon)
      rw [if_pos ⟨hz1, hz2⟩]
  · rw [parse_sncf_stops, filterMap_singleton_ne_nil]
    constructor
    · rintro ⟨x, hx⟩
      unfold sncfStopRow at hx
      rcases h0 : r.get? 0 with _ | sid <;> rw [h0] at hx
      · exact Option.noConfusion hx
      rcases h2 : r.get? 2 with _ | nm <;> rw [h2] at hx
      · exact Option.noConfusion hx
      rcases h4 : r.get? 4 with _ | latS <;> rw [h4] at hx
      · exact Option.noConfusion hx
      rcases h5 : r.get? 5 with _ | lonS <;> rw [h5] at hx
      · exact Option.noConfusion hx
      replace hx : (if (r.get? 9).getD (str "0") = str "1" then none
          else
            match parseF64 latS, parseF64 lonS with
            | some lat, some lon =>
              if f64Ne0 lat ∧ f64Ne0 lon then
                match extract_sncf_stop_id sid with
                | some simplified => some (simplified, nm, lat, lon)
                | none => none
              else none
            | _, _ => none) = some x := hx
      by_cases hloc : (r.get? 9).getD (str "0") = str "1"
      · rw [if_pos hloc] at hx
        exact Option.noConfusion hx
      rw [if_neg hloc] at hx
      rcases hlat : parseF64 latS with _ | lat <;> rw [hlat] at hx
      · exact Option.noConfusion hx
      rcases hlon : parseF64 lonS with _ | lon <;> rw [hlon] at hx
      · exact Option.noConfusion hx
      replace hx : (if f64Ne0 lat ∧ f64Ne0 lon then
          match extract_sncf_stop_id sid with
          | some simplified => some (simplified, nm, lat, lon)
          | none => none
          else none) = some x := hx
      by_cases hz : f64Ne0 lat = true ∧ f64Ne0 lon = true
      · exact ⟨sid, nm, latS, lonS, rfl, rfl, rfl, rfl, hloc,
          lat, lon, hlat, hlon, hz.1, hz.2⟩
      · rw [if_neg hz] at hx
        exact Option.noConfusion hx
    · rintro ⟨sid, nm, latS, lonS, h0, h2, h4, h5, hloc,
        lat, lon, hlat, hlon, hz1, hz2⟩
      obtain ⟨simplified, hsim⟩ := extract_sncf_stop_id_isSome sid
      refine ⟨(simplified, nm, lat, lon), ?_⟩
      unfold sncfStopRow
      rw [h0, h2, h4, h5]
      show (if (r.get? 9).getD (str "0") = str "1" then none
        else
          match parseF64 latS, parseF64 lonS with
          | some lat, some lon =>
            if f64Ne0 lat ∧ f64Ne0 lon then
              match extract_sncf_stop_id sid with
              | some simplified => some (simplified, nm, lat, lon)
              | none => none
            else none
          | _, _ => none) = some (simplified, nm, lat, lon)
      rw [if_neg hloc, hlat, hlon]
      show (if f64Ne0 lat ∧ f64Ne0 lon then
          match extract_sncf_stop_id sid with
          | some s2 => some (s2, nm, lat, lon)
          | none => none
          else none) = some (simplified, nm, lat, lon)
      rw [if_pos ⟨hz1, hz2⟩, hsim]
  · rw [download_and_read_gtfs_stops, filterMap_singleton_ne_nil]
    constructor
    · rintro ⟨x, hx⟩
      unfold tbmStopRow at hx
      rcases h0 : r.get? 0 with _ | sid <;> rw [h0] at hx
      · exact Option.noConfusion hx
      rcases h2 : r.get? 2 with _ | nm <;> rw [h2] at hx
      · exact Option.noConfusion hx
      rcases h4 : r.get? 4 with _ | latS <;> rw [h4] at hx
      · exact Option.noConfusion hx
      rcases h5 : r.get? 5 with _ | lonS <;> rw [h5] at hx
      · exact Option.noConfusion hx
      replace hx : (match parseF64 latS, parseF64 lonS with
        | some lat, some lon => some (sid, nm, lat, lon)
        | _, _ => none) = some x := hx
      rcases hlat : parseF64 latS with _ | lat <;> rw [hlat] at hx
      · exact Option.noConfusion hx
      rcases hlon : parseF64 lonS with _ | lon <;> rw [hlon] at hx
      · exact Option.noConfusion hx
      exact ⟨sid, nm, latS, lonS, rfl, rfl, rfl, rfl, lat, lon, hlat, hlon⟩
    · rintro ⟨sid, nm, latS, lonS, h0, h2, h4, h5, lat, lon, hlat, hlon⟩
      refine ⟨(sid, nm, lat, lon), ?_⟩
      unfold tbmStopRow
      rw [h0, h2, h4, h5]
      show (match parseF64 latS, parseF64 lonS with
        | some lat, some lon => some (sid, nm, lat, lon)
        | _, _ => none) = some (sid, nm, lat, lon)
      rw [hlat, hlon]

set_option maxRecDepth 8192 in
/-- Counterexample to C2 as stated: the TBM stops parser keeps a
parent station (`location_type = "1"`), and the regional parser keeps
a stop whose latitude is the non-finite float `"inf"`. -/
theorem stops_filter_counterexample :
    (download_and_read_gtfs_stops
        [[str "S1", [], str "Stop A", [], str "44", str "5",
          [], [], [], str "1"]]).length = 1 ∧
    [str "S1", [], str "Stop A", [], str "44", str "5",
      [], [], [], str "1"].get? 9 = some (str "1") ∧
    (parse_transgironde_stops
        [[str "S2", [], str "Stop B", [], [], str "inf", str "3",
          [], [], str "0"]]).length = 1 ∧
    specFiniteNonZero (str "inf") = false := by
  refine ⟨by decide, by decide, by decide, by decide⟩

/-! ## Data structures (from `tbm_api_models.rs`) -/

/-- `AlertInfo`. -/
structure AlertInfo where
  id : Str
  text : Str
  description : Str
  url : Option Str
  route_ids : List Str
  stop_ids : List Str
  active_period_start : Option Int
  active_period_end : Option Int
  severity : Nat
deriving DecidableEq

/-- `RealTimeInfo`. -/
structure RealTimeInfo where
  vehicle_id : Str
  trip_id : Str
  route_id : Option Str
  direction_id : Option Nat
  destination : Option Str
  latitude : F64
  longitude : F64
  stop_id : Option Str
  current_stop_sequence : Option Nat
  timestamp : Option Int
  delay : Option Int
deriving DecidableEq

/-- `Stop`. -/
structure Stop where
  stop_id : Str
  stop_name : Str
  latitude : F64
  longitude : F64
  lines : List Str
  alerts : List AlertInfo
  real_time : List RealTimeInfo
deriving DecidableEq

/-- `ShapePoint`. -/
structure ShapePoint where
  latitude : F64
  longitude : F64
  sequence : Nat
deriving DecidableEq

/-- `StopTime`. -/
structure StopTime where
  trip_id : Str
  arrival_time : Str
  departure_time : Str
  stop_id : Str
  stop_sequence : Nat
  stop_headsign : Option Str
deriving DecidableEq

/-- `Trip`. -/
structure Trip where
  trip_id : Str
  route_id : Str
  service_id : Str
  trip_headsign : Option Str
  direction_id : Option Nat
deriving DecidableEq

/-- `ServiceCalendar`. -/
structure ServiceCalendar where
  service_id : Str
  monday : Bool
  tuesday : Bool
  wednesday : Bool
  thursday : Bool
  friday : Bool
  saturday : Bool
  sunday : Bool
  start_date : Str
  end_date : Str
deriving DecidableEq

/-- `CalendarDate`. -/
structure CalendarDate where
  service_id : Str
  date : Str
  exception_type : Nat
deriving DecidableEq

/-- `Agency`. -/
structure Agency where
  agency_id : Str
  agency_name : Str
  agency_url : Str
  agency_timezone : Str
  agency_phone : Str
deriving DecidableEq

/-- `Transfer`. -/
structure Transfer where
  from_stop_id : Str
  to_stop_id : Str
  transfer_type : Nat
  min_transfer_time : Option Nat
deriving DecidableEq

/-- `ScheduledArrival`. -/
structure ScheduledArrival where
  trip_id : Str
  route_id : Str
  line_code : Str
  line_color : Str
  arrival_time : Str
  departure_time : Str
  destination : Option Str
  stop_headsign : Option Str
  operator : Str
deriving DecidableEq

/-- `Line`. -/
structure Line where
  line_ref : Str
  line_name : Str
  line_code : Str
  route_id : Str
  destinations : List (Str × Str)
  alerts : List AlertInfo
  real_time : List RealTimeInfo
  color : Str
  shape_ids : List Str
  operator : Str
deriving DecidableEq

/-- `GTFSCache` (the per-operator static tables; `HashMap`s are
association lists). -/
structure GTFSCache where
  routes : List (Str × Str)
  stops : List (Str × Str × F64 × F64)
  shapes : List (Str × List ShapePoint)
  route_to_shapes : List (Str × List Str)
  stop_times : List (Str × List StopTime)
  trips : List (Str × Trip)
  calendar : List (Str × ServiceCalendar)
  calendar_dates : List (Str × List CalendarDate)
  agencies : List (Str × Agency)
  route_agencies : List (Str × Str)
  transfers : List Transfer
  cached_at : Nat
  source : Str
deriving DecidableEq

/-- GTFS-RT `StopTimeEvent` (the fields the code reads). -/
structure StopTimeEvent where
  delay : Option Int
  time : Option Int
deriving DecidableEq

/-- GTFS-RT `StopTimeUpdate` (the fields the code reads). -/
structure StopTimeUpdate where
  stop_id : Option Str
  arrival : Option StopTimeEvent
  departure : Option StopTimeEvent
deriving DecidableEq

/-- GTFS-RT `TripDescriptor` (the fields the code reads). -/
structure TripDescriptor where
  trip_id : Option Str
  route_id : Option Str
  direction_id : Option Nat
deriving DecidableEq

/-- GTFS-RT `TripUpdate` (the fields the code reads). -/
structure TripUpdate where
  trip : TripDescriptor
  stop_time_update : List StopTimeUpdate
deriving DecidableEq

instance : DecidableEq (Str × Str) := inferInstance

instance : DecidableEq (List (Str × Str)) := inferInstance

instance : DecidableEq (Str × Str × F64 × F64 × List Str) := inferInstance

instance : DecidableEq (Str × Str × Str × List (Str × Str)) := inferInstance

/-- `CachedNetworkData`. -/
structure CachedNetworkData where
  tbm_stops_metadata : List (Str × Str × F64 × F64 × List Str)
  tbm_lines_metadata : List (Str × Str × Str × List (Str × Str))
  tbm_gtfs_cache : GTFSCache
  transgironde_stops : List Stop
  transgironde_lines : List Line
  transgironde_gtfs_cache : GTFSCache
  sncf_stops : List Stop
  sncf_lines : List Line
  sncf_gtfs_cache : GTFSCache
  last_static_update : Nat
  alerts : List AlertInfo
  real_time : List RealTimeInfo
  trip_updates : List TripUpdate
  last_dynamic_update : Nat
deriving DecidableEq

/-- `NVTError`. -/
inductive NVTError where
  | networkError (msg : Str)
  | parseError (msg : Str)
  | fileError (msg : Str)
deriving DecidableEq

/-! ## Service calendars (`NVTModels::is_service_active`) -/

/-- The weekday match of `is_service_active` (0 = Monday … 6 = Sunday,
anything else false). -/
def weekdayFlag (cal : ServiceCalendar) : Nat → Bool
  | 0 => cal.monday
  | 1 => cal.tuesday
  | 2 => cal.wednesday
  | 3 => cal.thursday
  | 4 => cal.friday
  | 5 => cal.saturday
  | 6 => cal.sunday
  | _ => false

/-- `NVTModels::is_service_active`: first look for a calendar_dates
exception with an exact date match (returning `exception_type == 1` at
the first match); otherwise require the weekly calendar to exist, the
date to lie in `[start_date, end_date]`, and the weekday flag. -/
def is_service_active (service_id date : Str) (weekday : Nat)
    (calendar : List (Str × ServiceCalendar))
    (calendar_dates : List (Str × List CalendarDate)) : Bool :=
  match (alookup calendar_dates service_id).bind
      (fun exs => exs.find? (fun e => e.date = date)) with
  | some e => e.exception_type == 1
  | none =>
    match alookup calendar service_id with
    | some cal =>
      if strLt date cal.start_date ∨ strLt cal.end_date date then false
      else weekdayFlag cal weekday
    | none => false

/-- C4: a calendar_dates entry matching the query date decides
activation (type 1 ⟺ active) without consulting the weekly calendar —
stated for a service whose matching entries agree on the exception
type, since the code takes the first match; absent any matching
exception, the service is active iff its weekly calendar exists, the
date lies within `[start_date, end_date]` (inclusive, lexicographic),
and the query weekday's flag is set. -/
theorem service_calendar_active_spec (sid date : Str) (wd : Nat)
    (cal : List (Str × ServiceCalendar))
    (cds : List (Str × List CalendarDate)) :
    (∀ exs e, alookup cds sid = some exs → e ∈ exs → e.date = date →
      (∀ e2 ∈ exs, e2.date = date → e2.exception_type = e.exception_type) →
      (is_service_active sid date wd cal cds = true ↔
        e.exception_type = 1)) ∧
    ((∀ exs, alookup cds sid = some exs → ∀ e ∈ exs, e.date ≠ date) →
      (is_service_active sid date wd cal cds = true ↔
        ∃ c, alookup cal sid = some c ∧ strLe c.start_date date ∧
          strLe date c.end_date ∧ weekdayFlag c wd = true)) := by
  constructor
  · intro exs e hlk hmem hdate hagree
    have hsome : (exs.find? (fun e2 => e2.date = date)).isSome := by
      rw [List.find?_isSome]
      exact ⟨e, hmem, by simp [hdate]⟩
    obtain ⟨e2, he2⟩ := Option.isSome_iff_exists.mp hsome
    have he2mem := List.mem_of_find?_eq_some he2
    have he2date : e2.date = date := by simpa using List.find?_some he2
    have htype := hagree e2 he2mem he2date
    unfold is_service_active
    rw [hlk, Option.some_bind, he2]
    simp [beq_iff_eq, htype]
  · intro hno
    have hnone : (alookup cds sid).bind
        (fun exs => exs.find? (fun e => e.date = date)) = none := by
      cases hlk : alookup cds sid with
      | none => rfl
      | some exs =>
        rw [Option.some_bind]
        exact List.find?_eq_none.mpr
          (fun e he => by simp [hno exs hlk e he])
    unfold is_service_active
    rw [hnone]
    cases hcal : alookup cal sid with
    | none =>
      refine iff_of_false (by simp) ?_
      rintro ⟨c, hc, -⟩
      exact Option.noConfusion hc
    | some c =>
      show (if strLt date c.start_date ∨ strLt c.end_date date then false
        else weekdayFlag c wd) = true ↔ _
      by_cases h1 : strLt date c.start_date ∨ strLt c.end_date date
      · rw [if_pos h1]
        refine iff_of_false (by simp) ?_
        rintro ⟨c2, hc2, hs, he, -⟩
        cases Option.some.inj hc2
        rcases h1 with h1 | h1
        · exact (not_lt_iff_le date c.start_date).mpr hs h1
        · exact (not_lt_iff_le c.end_date date).mpr he h1
      · rw [if_neg h1, not_or] at *
        constructor
        · intro hw
          exact ⟨c, rfl, (not_lt_iff_le _ _).mp h1.1,
            (not_lt_iff_le _ _).mp h1.2, hw⟩
        · rintro ⟨c2, hc2, -, -, hw⟩
          cases Option.some.inj hc2
          exact hw

/-- Sample weekly calendar rows for the `is_service_active` witness. -/
def calW : List (Str × ServiceCalendar) :=
  [(str "S", ⟨str "S", true, false, false, false, false, false, false,
    str "20240101", str "20261231"⟩),
   (str "S2", ⟨str "S2", true, false, false, false, false, false, false,
    str "20240101", str "20261231"⟩)]

/-- Sample exception rows for the `is_service_active` witness. -/
def cdsW : List (Str × List CalendarDate) :=
  [(str "S", [⟨str "S", str "20250101", 2⟩])]

/-- Witness for `service_calendar_active_spec`: an exception of type 2
overrides a `monday = true` calendar; a service without exceptions
falls back to the weekly calendar. -/
theorem service_calendar_active_spec_witness :
    (is_service_active (str "S") (str "20250101") 0 calW cdsW = true ↔
      (2 : Nat) = 1) ∧
    (is_service_active (str "S2") (str "20250101") 0 calW cdsW = true ↔
      ∃ c, alookup calW (str "S2") = some c ∧
        strLe c.start_date (str "20250101") ∧
        strLe (str "20250101") c.end_date ∧ weekdayFlag c 0 = true) :=
  ⟨(service_calendar_active_spec (str "S") (str "20250101") 0 calW cdsW).1
      [⟨str "S", str "20250101", 2⟩] ⟨str "S", str "20250101", 2⟩
      (by decide) (by decide) (by decide) (by decide),
    (service_calendar_active_spec (str "S2") (str "20250101") 0 calW cdsW).2
      (fun exs h => by
        rw [show alookup cdsW (str "S2") =
          (none : Option (List CalendarDate)) from by decide] at h
        exact Option.noConfusion h)⟩

/-! ## Scheduled-arrival calculator (`NVTModels::get_scheduled_arrivals`)

The wall clock (`Local::now()`) is passed in as `today_date`
(`YYYYMMDD`), `current_seconds` (seconds since local midnight) and
`weekday` (0 = Monday). -/

/-- `NVTModels::parse_gtfs_time`: split on `':'`, require exactly
three parts, parse each as `u32`, and combine (the `u32` arithmetic is
reduced modulo `2^32` as in a release build). -/
def parse_gtfs_time (s : Str) : Option Nat :=
  match splitChar ':' s with
  | [h, m, sec] =>
    match parseU32 h, parseU32 m, parseU32 sec with
    | some hv, some mv, some sv => some ((hv * 3600 + mv * 60 + sv) % 2 ^ 32)
    | _, _, _ => none
  | _ => none

/-- Rust `split(':').last().unwrap_or(route_id)` (split of a string is
never empty, so the fallback never fires). -/
def lastSeg (s : Str) : Str := ((splitChar ':' s).getLast?).getD s

/-- `NVTModels::extract_line_code_from_route`. -/
def extract_line_code_from_route (route_id operator : Str) : Str :=
  if operator = str "TBM" then lastSeg route_id
  else if operator = str "TransGironde" then lastSeg route_id
  else route_id

/-- The dedup key of `get_scheduled_arrivals`:
`(line_code, arrival_time, destination.unwrap_or_default())`. -/
def arrKey (a : ScheduledArrival) : Str × Str × Str :=
  (a.line_code, a.arrival_time, a.destination.getD [])

/-- The `retain`/`HashSet::insert` dedup of `get_scheduled_arrivals`:
keep an element iff its key was not seen before. -/
def dedupByKey (seen : List (Str × Str × Str)) :
    List ScheduledArrival → List ScheduledArrival
  | [] => []
  | x :: xs =>
    if arrKey x ∈ seen then dedupByKey seen xs
    else x :: dedupByKey (arrKey x :: seen) xs

/-- The comparator of the final sort: ascending raw arrival-time
string. -/
def arrLe (a b : ScheduledArrival) : Prop :=
  strLe a.arrival_time b.arrival_time

instance : DecidableRel arrLe := fun a b => by unfold arrLe; infer_instance

instance : IsTotal ScheduledArrival arrLe :=
  ⟨fun a b => strLe_total a.arrival_time b.arrival_time⟩

instance : IsTrans ScheduledArrival arrLe :=
  ⟨fun _ _ _ => strLe_trans⟩

/-- The candidate-collection loop of `get_scheduled_arrivals`: for
each of the three per-operator caches, every StopTime of the queried
stop whose trip exists, whose service is active today, and whose
arrival time parses and passes the future check, contributes one
`ScheduledArrival`. -/
def scheduledCandidates (stop_id : Str) (cache : CachedNetworkData)
    (today_date : Str) (current_seconds weekday : Nat) :
    List ScheduledArrival :=
  ([(cache.tbm_gtfs_cache, str "TBM"),
    (cache.transgironde_gtfs_cache, str "TransGironde"),
    (cache.sncf_gtfs_cache, str "SNCF")]).bind
    (fun gc_op =>
      match alookup gc_op.1.stop_times stop_id with
      | none => []
      | some sts => sts.filterMap (fun st =>
          match alookup gc_op.1.trips st.trip_id with
          | none => none
          | some trip =>
            if ¬ is_service_active trip.service_id today_date weekday
                gc_op.1.calendar gc_op.1.calendar_dates then none
            else
              match parse_gtfs_time st.arrival_time with
              | none => none
              | some s =>
                let is_future : Bool :=
                  if s ≥ 86400 then decide (current_seconds ≥ 79200)
                  else decide (s ≥ current_seconds)
                if is_future then
                  some { trip_id := st.trip_id
                         route_id := trip.route_id
                         line_code :=
                           extract_line_code_from_route trip.route_id gc_op.2
                         line_color :=
                           (alookup gc_op.1.routes trip.route_id).getD
                             (str "808080")
                         arrival_time := st.arrival_time
                         departure_time := st.departure_time
                         destination := trip.trip_headsign
                         stop_headsign := st.stop_headsign
                         operator := gc_op.2 }
                else none))

/-- `NVTModels::get_scheduled_arrivals`: collect candidates, sort
ascending by raw arrival-time string (a stable sort, as Rust's
`sort_by`), dedup by `(line_code, arrival_time, destination)` keeping
first occurrences, truncate to `max_results`. -/
def get_scheduled_arrivals (stop_id : Str) (cache : CachedNetworkData)
    (max_results : Nat) (today_date : Str) (current_seconds weekday : Nat) :
    List ScheduledArrival :=
  (dedupByKey [] (List.insertionSort arrLe
    (scheduledCandidates stop_id cache today_date current_seconds weekday))
    ).take max_results

theorem dedupByKey_sublist (seen : List (Str × Str × Str))
    (l : List ScheduledArrival) : List.Sublist (dedupByKey seen l) l := by
  induction l generalizing seen with
  | nil => exact List.Sublist.refl _
  | cons x xs ih =>
    rw [dedupByKey]
    split
    · exact (ih seen).cons x
    · exact (ih (arrKey x :: seen)).cons₂ x

theorem dedupByKey_not_seen (seen : List (Str × Str × Str))
    (l : List ScheduledArrival) :
    ∀ x ∈ dedupByKey seen l, arrKey x ∉ seen := by
  induction l generalizing seen with
  | nil => intro x hx; exact absurd hx (by simp [dedupByKey])
  | cons z zs ih =>
    intro x hx
    rw [dedupByKey] at hx
    split at hx
    · exact ih seen x hx
    · rcases List.mem_cons.mp hx with rfl | hx2
      · assumption
      · have := ih (arrKey z :: seen) x hx2
        exact fun hmem => this (List.mem_cons_of_mem _ hmem)

theorem dedupByKey_pairwise (seen : List (Str × Str × Str))
    (l : List ScheduledArrival) :
    (dedupByKey seen l).Pairwise (fun a b => arrKey a ≠ arrKey b) := by
  induction l generalizing seen with
  | nil => exact List.Pairwise.nil
  | cons z zs ih =>
    rw [dedupByKey]
    split
    · exact ih seen
    · refine List.Pairwise.cons ?_ (ih (arrKey z :: seen))
      intro y hy
      have := dedupByKey_not_seen (arrKey z :: seen) zs y hy
      exact fun he => this (he ▸ List.mem_cons_self _ _)

theorem dedupByKey_firstOcc (seen : List (Str × Str × Str))
    (l : List ScheduledArrival) :
    ∀ x ∈ dedupByKey seen l, ∃ pre post, l = pre ++ x :: post ∧
      ∀ y ∈ pre, arrKey y ≠ arrKey x := by
  induction l generalizing seen with
  | nil => intro x hx; exact absurd hx (by simp [dedupByKey])
  | cons z zs ih =>
    intro x hx
    have hxnot := dedupByKey_not_seen seen (z :: zs) x hx
    rw [dedupByKey] at hx
    split at hx
    · rename_i hzseen
      obtain ⟨pre, post, heq, hpre⟩ := ih seen x hx
      refine ⟨z :: pre, post, by rw [heq, List.cons_append], ?_⟩
      intro y hy
      rcases List.mem_cons.mp hy with rfl | hy2
      · exact fun he => hxnot (he ▸ hzseen)
      · exact hpre y hy2
    · rcases List.mem_cons.mp hx with rfl | hx2
      · exact ⟨[], zs, rfl, by simp⟩
      · have hxz := dedupByKey_not_seen (arrKey z :: seen) zs x hx2
        obtain ⟨pre, post, heq, hpre⟩ := ih (arrKey z :: seen) x hx2
        refine ⟨z :: pre, post, by rw [heq, List.cons_append], ?_⟩
        intro y hy
        rcases List.mem_cons.mp hy with rfl | hy2
        · exact fun he => hxz (he ▸ List.mem_cons_self _ _)
        · exact hpre y hy2

theorem dedupByKey_complete (seen : List (Str × Str × Str))
    (l : List ScheduledArrival) :
    ∀ x ∈ l, arrKey x ∈ seen ∨
      ∃ y ∈ dedupByKey seen l, arrKey y = arrKey x := by
  induction l generalizing seen with
  | nil => intro x hx; exact absurd hx (by simp)
  | cons z zs ih =>
    intro x hx
    rw [dedupByKey]
    rcases List.mem_cons.mp hx with rfl | hx2
    · by_cases hz : arrKey x ∈ seen
      · exact Or.inl hz
      · rw [if_neg hz]
        exact Or.inr ⟨x, List.mem_cons_self _ _, rfl⟩
    · by_cases hz : arrKey z ∈ seen
      · rw [if_pos hz]
        exact ih seen x hx2
      · rw [if_neg hz]
        rcases ih (arrKey z :: seen) x hx2 with h | ⟨y, hy, hk⟩
        · rcases List.mem_cons.mp h with he | hseen
          · exact Or.inr ⟨z, List.mem_cons_self _ _, he.symm⟩
          · exact Or.inl hseen
        · exact Or.inr ⟨y, List.mem_cons_of_mem _ hy, hk⟩

/-- Inversion: every candidate arrival originates from one of the
three caches, a StopTime of the queried stop, an existing trip whose
service is active today, and a parsed arrival time passing the future
check. -/
theorem mem_scheduledCandidates {x : ScheduledArrival} {stop_id : Str}
    {cache : CachedNetworkData} {d : Str} {cs wd : Nat}
    (hx : x ∈ scheduledCandidates stop_id cache d cs wd) :
    ∃ gc op, (gc, op) ∈ [(cache.tbm_gtfs_cache, str "TBM"),
        (cache.transgironde_gtfs_cache, str "TransGironde"),
        (cache.sncf_gtfs_cache, str "SNCF")] ∧
      ∃ sts, alookup gc.stop_times stop_id = some sts ∧
      ∃ st, st ∈ sts ∧
      ∃ trip, alookup gc.trips st.trip_id = some trip ∧
        is_service_active trip.service_id d wd gc.calendar
          gc.calendar_dates = true ∧
        ∃ s, parse_gtfs_time st.arrival_time = some s ∧
          (if s ≥ 86400 then decide (cs ≥ 79200)
            else decide (s ≥ cs)) = true ∧
          x = { trip_id := st.trip_id
                route_id := trip.route_id
                line_code := extract_line_code_from_route trip.route_id op
                line_color :=
                  (alookup gc.routes trip.route_id).getD (str "808080")
                arrival_time := st.arrival_time
                departure_time := st.departure_time
                destination := trip.trip_headsign
                stop_headsign := st.stop_headsign
                operator := op } := by
  unfold scheduledCandidates at hx
  rw [List.mem_bind] at hx
  obtain ⟨p, hp, hxp⟩ := hx
  refine ⟨p.1, p.2, by simpa using hp, ?_⟩
  rcases hsts : alookup p.1.stop_times stop_id with _ | sts <;> rw [hsts] at hxp
  · exact absurd hxp (List.not_mem_nil x)
  · rw [List.mem_filterMap] at hxp
    obtain ⟨st, hst, hbody⟩ := hxp
    refine ⟨sts, rfl, st, hst, ?_⟩
    rcases htrip : alookup p.1.trips st.trip_id with _ | trip <;>
      rw [htrip] at hbody
    · exact Option.noConfusion hbody
    · replace hbody : (if ¬ is_service_active trip.service_id d wd
          p.1.calendar p.1.calendar_dates then none
        else
          match parse_gtfs_time st.arrival_time with
          | none => none
          | some s =>
            let is_future : Bool :=
              if s ≥ 86400 then decide (cs ≥ 79200)
              else decide (s ≥ cs)
            if is_future then
              some { trip_id := st.trip_id
                     route_id := trip.route_id
                     line_code :=
                       extract_line_code_from_route trip.route_id p.2
                     line_color :=
                       (alookup p.1.routes trip.route_id).getD (str "808080")
                     arrival_time := st.arrival_time
                     departure_time := st.departure_time
                     destination := trip.trip_headsign
                     stop_headsign := st.stop_headsign
                     operator := p.2 }
            else none) = some x := hbody
      by_cases hact : is_service_active trip.service_id d wd
          p.1.calendar p.1.calendar_dates = true
      · rw [if_neg (not_not_intro hact)] at hbody
        rcases hparse : parse_gtfs_time st.arrival_time with _ | s <;>
          rw [hparse] at hbody
        · exact Option.noConfusion hbody
        · replace hbody : (if (if s ≥ 86400 then decide (cs ≥ 79200)
              else decide (s ≥ cs)) = true then
              some { trip_id := st.trip_id
                     route_id := trip.route_id
                     line_code :=
                       extract_line_code_from_route trip.route_id p.2
                     line_color :=
                       (alookup p.1.routes trip.route_id).getD (str "808080")
                     arrival_time := st.arrival_time
                     departure_time := st.departure_time
                     destination := trip.trip_headsign
                     stop_headsign := st.stop_headsign
                     operator := p.2 }
            else none) = some x := hbody
          by_cases hfut : (if s ≥ 86400 then decide (cs ≥ 79200)
              else decide (s ≥ cs)) = true
          · rw [if_pos hfut] at hbody
            exact ⟨trip, rfl, hact, s, rfl, hfut,
              (Option.some.inj hbody).symm⟩
          · rw [if_neg hfut] at hbody
            exact Option.noConfusion hbody
      · rw [if_pos hact] at hbody
        exact Option.noConfusion hbody

/-- Every output element of `get_scheduled_arrivals` is a candidate
(the output is a permutation-sublist of the candidate list). -/
theorem mem_scheduled_output {x : ScheduledArrival} {stop : Str}
    {cache : CachedNetworkData} {N : Nat} {d : Str} {cs wd : Nat}
    (hx : x ∈ get_scheduled_arrivals stop cache N d cs wd) :
    x ∈ scheduledCandidates stop cache d cs wd := by
  unfold get_scheduled_arrivals at hx
  have h1 := List.mem_of_mem_take hx
  have h2 := (dedupByKey_sublist [] _).subset h1
  exact (List.perm_insertionSort arrLe _).subset h2

/-- C5: every emitted arrival's raw time parses to some `s`, and the
future filter held for it: a next-day time (`s ≥ 86400`) is emitted
only when the current time-of-day has passed 22:00:00 (79200 s), and a
same-day time only when it is not already past. -/
theorem scheduled_time_filter (stop : Str) (cache : CachedNetworkData)
    (N : Nat) (d : Str) (cs wd : Nat) :
    ∀ x ∈ get_scheduled_arrivals stop cache N d cs wd,
      ∃ s, parse_gtfs_time x.arrival_time = some s ∧
        (s ≥ 86400 → cs ≥ 79200) ∧ (s < 86400 → s ≥ cs) := by
  intro x hx
  obtain ⟨gc, op, hmem, sts, hsts, st, hst, trip, htrip, hact, s, hparse,
    hfut, hxeq⟩ := mem_scheduledCandidates (mem_scheduled_output hx)
  subst hxeq
  refine ⟨s, hparse, ?_, ?_⟩
  · intro hge
    rw [if_pos hge] at hfut
    exact of_decide_eq_true hfut
  · intro hlt
    rw [if_neg (not_le.mpr hlt)] at hfut
    exact of_decide_eq_true hfut

/-- C7: the calculator output is sorted ascending by raw arrival-time
string, has pairwise-distinct `(line_code, arrival_time, destination)`
keys, respects the `max_results` bound, keeps only first occurrences
of each key in the sorted candidate list, and (before truncation)
retains exactly one survivor per key. -/
theorem scheduled_output_shape (stop : Str) (cache : CachedNetworkData)
    (N : Nat) (d : Str) (cs wd : Nat) :
    (get_scheduled_arrivals stop cache N d cs wd).Pairwise arrLe ∧
    (get_scheduled_arrivals stop cache N d cs wd).Pairwise
      (fun a b => arrKey a ≠ arrKey b) ∧
    (get_scheduled_arrivals stop cache N d cs wd).length ≤ N ∧
    (∀ x ∈ get_scheduled_arrivals stop cache N d cs wd,
      ∃ pre post,
        List.insertionSort arrLe (scheduledCandidates stop cache d cs wd) =
          pre ++ x :: post ∧ ∀ y ∈ pre, arrKey y ≠ arrKey x) ∧
    (∀ x ∈ List.insertionSort arrLe (scheduledCandidates stop cache d cs wd),
      ∃ y ∈ dedupByKey []
        (List.insertionSort arrLe (scheduledCandidates stop cache d cs wd)),
        arrKey y = arrKey x) := by
  have hsorted : (List.insertionSort arrLe
      (scheduledCandidates stop cache d cs wd)).Pairwise arrLe :=
    List.sorted_insertionSort arrLe _
  have hsub : List.Sublist (get_scheduled_arrivals stop cache N d cs wd)
      (List.insertionSort arrLe (scheduledCandidates stop cache d cs wd)) := by
    unfold get_scheduled_arrivals
    exact (List.take_sublist _ _).trans (dedupByKey_sublist [] _)
  refine ⟨hsorted.sublist hsub, ?_, ?_, ?_, ?_⟩
  · exact (dedupByKey_pairwise [] _).sublist (List.take_sublist _ _)
  · exact List.length_take_le _ _
  · intro x hx
    unfold get_scheduled_arrivals at hx
    exact dedupByKey_firstOcc [] _ x (List.mem_of_mem_take hx)
  · intro x hx
    rcases dedupByKey_complete [] _ x hx with h | h
    · exact absurd h (List.not_mem_nil _)
    · exact h

/-- C10: a service id absent from both the calendar map and the
calendar_dates map is never active, and every emitted arrival's trip
has its service id present in at least one of the two tables of the
cache it came from. -/
theorem unknown_service_never_emitted :
    (∀ (sid d : Str) (wd : Nat) (cal : List (Str × ServiceCalendar))
        (cds : List (Str × List CalendarDate)),
      alookup cal sid = none → alookup cds sid = none →
      is_service_active sid d wd cal cds = false) ∧
    (∀ (stop : Str) (cache : CachedNetworkData) (N : Nat) (d : Str)
        (cs wd : Nat), ∀ x ∈ get_scheduled_arrivals stop cache N d cs wd,
      ∃ gc, (gc = cache.tbm_gtfs_cache ∨ gc = cache.transgironde_gtfs_cache ∨
          gc = cache.sncf_gtfs_cache) ∧
        ∃ trip, alookup gc.trips x.trip_id = some trip ∧
          ¬(alookup gc.calendar trip.service_id = none ∧
            alookup gc.calendar_dates trip.service_id = none)) := by
  have hpart1 : ∀ (sid d : Str) (wd : Nat)
      (cal : List (Str × ServiceCalendar))
      (cds : List (Str × List CalendarDate)),
      alookup cal sid = none → alookup cds sid = none →
      is_service_active sid d wd cal cds = false := by
    intro sid d wd cal cds h1 h2
    unfold is_service_active
    rw [h2, Option.none_bind, h1]
  refine ⟨hpart1, ?_⟩
  intro stop cache N d cs wd x hx
  obtain ⟨gc, op, hmem, sts, hsts, st, hst, trip, htrip, hact, s, hparse,
    hfut, hxeq⟩ := mem_scheduledCandidates (mem_scheduled_output hx)
  subst hxeq
  have hgc : gc = cache.tbm_gtfs_cache ∨ gc = cache.transgironde_gtfs_cache ∨
      gc = cache.sncf_gtfs_cache := by
    simp only [List.mem_cons, List.not_mem_nil, or_false, Prod.mk.injEq] at hmem
    rcases hmem with ⟨h, -⟩ | ⟨h, -⟩ | ⟨h, -⟩ <;> simp [h]
  refine ⟨gc, hgc, trip, htrip, ?_⟩
  rintro ⟨h1, h2⟩
  rw [hpart1 trip.service_id d wd gc.calendar gc.calendar_dates h1 h2] at hact
  exact Bool.noConfusion hact

/-- An empty per-operator cache, for concrete witnesses. -/
def emptyGtfs (srcName : Str) : GTFSCache :=
  { routes := [], stops := [], shapes := [], route_to_shapes := [],
    stop_times := [], trips := [], calendar := [], calendar_dates := [],
    agencies := [], route_agencies := [], transfers := [],
    cached_at := 0, source := srcName }

/-- A TBM cache with one stop served by two trips of the same line at
the same time (same dedup key, different trip ids), active through a
type-1 calendar_dates exception. -/
def gtfsW : GTFSCache :=
  { emptyGtfs (str "TBM") with
    stop_times := [(str "ST1",
      [⟨str "T1", str "10:00:00", str "10:00:00", str "ST1", 1, none⟩,
       ⟨str "T2", str "10:00:00", str "10:00:00", str "ST1", 2, none⟩])]
    trips :=
      [(str "T1", ⟨str "T1", str "R:X:7", str "SVC", some (str "D"), none⟩),
       (str "T2", ⟨str "T2", str "R:X:7", str "SVC", some (str "D"), none⟩)]
    calendar_dates := [(str "SVC", [⟨str "SVC", str "20250101", 1⟩])] }

/-- A network cache holding only `gtfsW`, for concrete witnesses. -/
def cacheW : CachedNetworkData :=
  { tbm_stops_metadata := [], tbm_lines_metadata := [],
    tbm_gtfs_cache := gtfsW,
    transgironde_stops := [], transgironde_lines := [],
    transgironde_gtfs_cache := emptyGtfs (str "NewAquitaine"),
    sncf_stops := [], sncf_lines := [],
    sncf_gtfs_cache := emptyGtfs (str "SNCF"),
    last_static_update := 0, alerts := [], real_time := [],
    trip_updates := [], last_dynamic_update := 0 }

/-- The single arrival `cacheW` produces for stop `ST1`. -/
def arrW : ScheduledArrival :=
  { trip_id := str "T1", route_id := str "R:X:7",
    line_code := str "7", line_color := str "808080",
    arrival_time := str "10:00:00", departure_time := str "10:00:00",
    destination := some (str "D"), stop_headsign := none,
    operator := str "TBM" }

/-- Witness for `scheduled_time_filter` on the concrete cache. -/
theorem scheduled_time_filter_witness :
    arrW ∈ get_scheduled_arrivals (str "ST1") cacheW 5 (str "20250101") 0 0 ∧
    ∃ s, parse_gtfs_time arrW.arrival_time = some s ∧
      (s ≥ 86400 → (0 : Nat) ≥ 79200) ∧ (s < 86400 → s ≥ 0) :=
  ⟨by decide,
    scheduled_time_filter (str "ST1") cacheW 5 (str "20250101") 0 0 arrW
      (by decide)⟩

/-- Witness for `scheduled_output_shape` on the concrete cache: the
surviving arrival is a first occurrence of its key. -/
theorem scheduled_output_shape_witness :
    arrW ∈ get_scheduled_arrivals (str "ST1") cacheW 5 (str "20250101") 0 0 ∧
    ∃ pre post,
      List.insertionSort arrLe
        (scheduledCandidates (str "ST1") cacheW (str "20250101") 0 0) =
        pre ++ arrW :: post ∧ ∀ y ∈ pre, arrKey y ≠ arrKey arrW :=
  ⟨by decide,
    (scheduled_output_shape (str "ST1") cacheW 5 (str "20250101") 0 0).2.2.2.1
      arrW (by decide)⟩

/-- Witness for `unknown_service_never_emitted` at concrete inputs. -/
theorem unknown_service_never_emitted_witness :
    (is_service_active (str "S") (str "20250101") 0 [] [] = false) ∧
    (arrW ∈ get_scheduled_arrivals (str "ST1") cacheW 5 (str "20250101") 0 0 ∧
      ∃ gc, (gc = cacheW.tbm_gtfs_cache ∨ gc = cacheW.transgironde_gtfs_cache ∨
          gc = cacheW.sncf_gtfs_cache) ∧
        ∃ trip, alookup gc.trips arrW.trip_id = some trip ∧
          ¬(alookup gc.calendar trip.service_id = none ∧
            alookup gc.calendar_dates trip.service_id = none)) :=
  ⟨unknown_service_never_emitted.1 (str "S") (str "20250101") 0 [] []
      (by decide) (by decide),
    by decide,
    unknown_service_never_emitted.2 (str "ST1") cacheW 5 (str "20250101") 0 0
      arrW (by decide)⟩

/-! ## Real-time matching (`NVTModels::build_stops`)

The system clock read inside `build_stops` is passed as `now`
(seconds); `cutoff_time = now - 120`. -/

/-- `i64::MAX`, the sort key of entries without a timestamp. -/
def i64Max : Int := 2 ^ 63 - 1

/-- The staleness-cutoff `retain` predicate: keep an entry iff it has
no timestamp or its timestamp is within the grace window. -/
def cutoffKeep (cutoff : Int) (rt : RealTimeInfo) : Bool :=
  match rt.timestamp with
  | some ts => ts ≥ cutoff
  | none => true

/-- The per-stop sort key order: ascending
`timestamp.unwrap_or(i64::MAX)`. -/
def rtLe (a b : RealTimeInfo) : Prop :=
  a.timestamp.getD i64Max ≤ b.timestamp.getD i64Max

instance : DecidableRel rtLe := fun a b => by unfold rtLe; infer_instance

instance : IsTotal RealTimeInfo rtLe := ⟨fun a b => le_total _ _⟩

instance : IsTrans RealTimeInfo rtLe := ⟨fun _ _ _ => le_trans⟩

/-- Decimal rendering of a number (Rust `to_string`). -/
def natToStr (n : Nat) : Str := (toString n).data

/-- The `line_destinations_map` of `build_stops`: canonical line id →
destination pairs, collected from the lines metadata (later entries
overwrite earlier ones, as in `collect::<HashMap<_,_>>`). -/
def lineDestinationsMap
    (lines_metadata : List (Str × Str × Str × List (Str × Str))) :
    List (Str × List (Str × Str)) :=
  lines_metadata.foldl
    (fun m md =>
      match extract_line_id md.1 with
      | some lid => ainsert m lid md.2.2.2
      | none => m) []

/-- `HashMap::entry(k).or_insert_with(Vec::new).push(v)`. -/
def pushAt {α : Type} (m : List (Str × List α)) (k : Str) (v : α) :
    List (Str × List α) :=
  if hasKey m k then
    m.map (fun p => if p.1 = k then (p.1, p.2 ++ [v]) else p)
  else m ++ [(k, [v])]

/-- The entries of `trip_updates_by_stop`:
`(trip_id, route_id, direction_id, delay, time)`. -/
abbrev TUData := Str × Option Str × Option Nat × Option Int × Option Int

/-- The `trip_updates_by_stop` map of `build_stops`: every
stop-time-update with a stop id and a time within the cutoff is pushed
under its raw stop id and, when different, under its normalized
(`extract_stop_id`) stop id. -/
def tripUpdatesByStop (now : Int) (tus : List TripUpdate) :
    List (Str × List TUData) :=
  tus.foldl
    (fun m tu =>
      tu.stop_time_update.foldl
        (fun m stu =>
          match stu.stop_id with
          | none => m
          | some sid_raw =>
            let delay := (stu.arrival.bind (·.delay)).orElse
              (fun _ => stu.departure.bind (·.delay))
            let time := (stu.arrival.bind (·.time)).orElse
              (fun _ => stu.departure.bind (·.time))
            match time with
            | none => m
            | some arrival_time =>
              if arrival_time ≥ now - 120 then
                let data : TUData :=
                  (tu.trip.trip_id.getD (str "Unknown"), tu.trip.route_id,
                    tu.trip.direction_id, delay, time)
                let m2 := pushAt m sid_raw data
                match extract_stop_id sid_raw with
                | some ext => if ext ≠ sid_raw then pushAt m2 ext data else m2
                | none => m2
              else m) m) []

/-- The synthetic `"scheduled"` records built from
`trip_updates_by_stop` for one stop. -/
def syntheticRTs (ldm : List (Str × List (Str × Str)))
    (tubs : List (Str × List TUData)) (id : Str) (lat lon : F64) :
    List RealTimeInfo :=
  match alookup tubs id with
  | some schs => schs.map (fun dt =>
      { vehicle_id := str "scheduled"
        trip_id := dt.1
        route_id := dt.2.1
        direction_id := dt.2.2.1
        destination := dt.2.1.bind (fun rid =>
          (alookup ldm rid).bind (fun dests =>
            dt.2.2.1.bind (fun dir =>
              (dests.find? (fun p => p.1 = natToStr dir)).map (·.2))))
        latitude := lat
        longitude := lon
        stop_id := some id
        current_stop_sequence := none
        timestamp := dt.2.2.2.2
        delay := dt.2.2.2.1 })
  | none => []

/-- `truncate(MAX_ARRIVALS_PER_STOP)` applied only when longer. -/
def truncTo10 (l : List RealTimeInfo) : List RealTimeInfo :=
  if l.length > 10 then l.take 10 else l

/-- The per-stop real-time list of `build_stops`: live entries matched
by stop id, plus the synthetic scheduled entries, filtered by the
staleness cutoff, sorted by timestamp (undated last) and truncated to
the 10 soonest. -/
def buildStopRT (ldm : List (Str × List (Str × Str))) (cutoff : Int)
    (tubs : List (Str × List TUData)) (real_time : List RealTimeInfo)
    (id : Str) (lat lon : F64) : List RealTimeInfo :=
  truncTo10 (List.insertionSort rtLe
    ((real_time.filter (fun rt =>
        match rt.stop_id with
        | some sid => decide (sid = id)
        | none => false) ++
      syntheticRTs ldm tubs id lat lon).filter (cutoffKeep cutoff)))

/-- `NVTModels::build_stops`. -/
def build_stops (stops_data : List (Str × Str × F64 × F64 × List Str))
    (alerts : List AlertInfo) (real_time : List RealTimeInfo)
    (trip_updates : List TripUpdate)
    (lines_metadata : List (Str × Str × Str × List (Str × Str)))
    (now : Int) : List Stop :=
  stops_data.map (fun sd =>
    { stop_id := sd.1
      stop_name := sd.2.1
      latitude := sd.2.2.1
      longitude := sd.2.2.2.1
      lines := sd.2.2.2.2
      alerts := alerts.filter (fun a => sd.1 ∈ a.stop_ids)
      real_time := buildStopRT (lineDestinationsMap lines_metadata)
        (now - 120) (tripUpdatesByStop now trip_updates) real_time
        sd.1 sd.2.2.1 sd.2.2.2.1 })

theorem mem_truncTo10 {rt : RealTimeInfo} {l : List RealTimeInfo}
    (h : rt ∈ truncTo10 l) : rt ∈ l := by
  unfold truncTo10 at h
  split at h
  · exact List.mem_of_mem_take h
  · exact h

/-- Every entry attached to a stop carries that stop's id and passed
the staleness cutoff. -/
theorem mem_buildStopRT {rt : RealTimeInfo}
    {ldm : List (Str × List (Str × Str))} {cutoff : Int}
    {tubs : List (Str × List TUData)} {real_time : List RealTimeInfo}
    {id : Str} {lat lon : F64}
    (h : rt ∈ buildStopRT ldm cutoff tubs real_time id lat lon) :
    rt.stop_id = some id ∧ (∀ ts, rt.timestamp = some ts → cutoff ≤ ts) := by
  unfold buildStopRT at h
  have h1 := (List.perm_insertionSort rtLe _).subset (mem_truncTo10 h)
  obtain ⟨hb, hc⟩ := List.mem_filter.mp h1
  constructor
  · rcases List.mem_append.mp hb with hl | hr
    · obtain ⟨-, hpred⟩ := List.mem_filter.mp hl
      rcases hsid : rt.stop_id with _ | sid
      · rw [hsid] at hpred
        exact Bool.noConfusion hpred
      · rw [hsid] at hpred
        have hpred2 : sid = id := of_decide_eq_true hpred
        rw [hpred2]
    · unfold syntheticRTs at hr
      rcases htub : alookup tubs id with _ | schs <;> rw [htub] at hr
      · exact absurd hr (List.not_mem_nil rt)
      · obtain ⟨dt, -, hdt⟩ := List.mem_map.mp hr
        rw [← hdt]
  · intro ts hts
    rw [cutoffKeep, hts] at hc
    simpa using hc

/-- C6: every real-time entry `build_stops` attaches to a stop either
carries that stop's id or no stop id (in fact always the stop's id),
and any attached entry with a timestamp is no older than 120 seconds
before the evaluation instant; the staleness cutoff keeps every entry
without a timestamp. -/
theorem build_stops_rt_matching
    (stops_data : List (Str × Str × F64 × F64 × List Str))
    (alerts : List AlertInfo) (real_time : List RealTimeInfo)
    (trip_updates : List TripUpdate)
    (lines_metadata : List (Str × Str × Str × List (Str × Str)))
    (now : Int) :
    (∀ stop ∈ build_stops stops_data alerts real_time trip_updates
        lines_metadata now,
      ∀ rt ∈ stop.real_time,
        (rt.stop_id = some stop.stop_id ∨ rt.stop_id = none) ∧
        (∀ ts, rt.timestamp = some ts → now - 120 ≤ ts)) ∧
    (∀ l : List RealTimeInfo, ∀ rt ∈ l, rt.timestamp = none →
      rt ∈ l.filter (cutoffKeep (now - 120))) := by
  constructor
  · intro stop hstop rt hrt
    obtain ⟨sd, -, hsd⟩ := List.mem_map.mp hstop
    subst hsd
    have := mem_buildStopRT hrt
    exact ⟨Or.inl this.1, this.2⟩
  · intro l rt hrt hnone
    refine List.mem_filter.mpr ⟨hrt, ?_⟩
    rw [cutoffKeep, hnone]

/-- Sample live entry for the `build_stops` witness. -/
def rtW : RealTimeInfo :=
  { vehicle_id := str "V1", trip_id := str "T1", route_id := none,
    direction_id := none, destination := none,
    latitude := .fin 0 0, longitude := .fin 0 0,
    stop_id := some (str "ST1"), current_stop_sequence := none,
    timestamp := some 100, delay := none }

/-- Sample undated entry for the `build_stops` witness. -/
def rtUndated : RealTimeInfo :=
  { vehicle_id := str "V2", trip_id := str "T2", route_id := none,
    direction_id := none, destination := none,
    latitude := .fin 0 0, longitude := .fin 0 0,
    stop_id := none, current_stop_sequence := none,
    timestamp := none, delay := none }

/-- The stop `build_stops` produces for the witness inputs. -/
def stopW : Stop :=
  { stop_id := str "ST1", stop_name := str "N",
    latitude := .fin 0 0, longitude := .fin 0 0,
    lines := [], alerts := [], real_time := [rtW] }

/-- Witness for `build_stops_rt_matching` on concrete inputs. -/
theorem build_stops_rt_matching_witness :
    (stopW ∈ build_stops [(str "ST1", str "N", .fin 0 0, .fin 0 0, [])]
        [] [rtW] [] [] 100 ∧
      rtW ∈ stopW.real_time ∧
      ((rtW.stop_id = some stopW.stop_id ∨ rtW.stop_id = none) ∧
        (∀ ts, rtW.timestamp = some ts → (100 : Int) - 120 ≤ ts))) ∧
    (rtUndated ∈ [rtUndated].filter (cutoffKeep ((100 : Int) - 120))) :=
  ⟨⟨by decide, by decide,
    (build_stops_rt_matching [(str "ST1", str "N", .fin 0 0, .fin 0 0, [])]
        [] [rtW] [] [] 100).1 stopW (by decide) rtW (by decide)⟩,
    (build_stops_rt_matching [] [] [] [] [] 100).2 [rtUndated] rtUndated
      (by decide) (by decide)⟩

/-! ## Refresh orchestrator (`NVTModels::refresh_static_data`)

The fetch / load operations performed inside the function are IO; the
embedding receives their results, and the `&mut` cache together with
Rust's `?` early return is state passing that yields the final cache
and the error, if any. -/

/-- The results of the five fetch/load operations
`refresh_static_data` performs, plus the clock stamped at the end. -/
structure StaticFetchResults where
  fetch_stops : Except NVTError (List (Str × Str × F64 × F64 × List Str))
  fetch_lines : Except NVTError (List (Str × Str × Str × List (Str × Str)))
  load_gtfs_data : Except NVTError GTFSCache
  load_transgironde_data : Except NVTError (List Stop × List Line × GTFSCache)
  load_sncf_data : Except NVTError (List Stop × List Line × GTFSCache)
  now : Nat

/-- `NVTModels::refresh_static_data`: `fetch_stops()?` and
`fetch_lines()?` propagate errors (leaving the mutations already made
in place), while the three loaders fall back to the previous in-memory
values via `unwrap_or`; on full success `last_static_update` is
stamped. -/
def refresh_static_data (f : StaticFetchResults)
    (cache : CachedNetworkData) : CachedNetworkData × Option NVTError :=
  match f.fetch_stops with
  | .error e => (cache, some e)
  | .ok stopsMeta =>
    let cache1 := { cache with tbm_stops_metadata := stopsMeta }
    match f.fetch_lines with
    | .error e => (cache1, some e)
    | .ok linesMeta =>
      let cache2 := { cache1 with tbm_lines_metadata := linesMeta }
      let cache3 := { cache2 with tbm_gtfs_cache :=
        (match f.load_gtfs_data with
         | .ok g => g
         | .error _ => cache2.tbm_gtfs_cache) }
      let cache4 :=
        match f.load_transgironde_data with
        | .ok slg =>
          { cache3 with
              transgironde_stops := slg.1
              transgironde_lines := slg.2.1
              transgironde_gtfs_cache := slg.2.2 }
        | .error _ => cache3
      let cache5 :=
        match f.load_sncf_data with
        | .ok slg =>
          { cache4 with
              sncf_stops := slg.1
              sncf_lines := slg.2.1
              sncf_gtfs_cache := slg.2.2 }
        | .error _ => cache4
      ({ cache5 with last_static_update := f.now }, none)

/-- C1 (amended): when `refresh_static_data` returns an error, every
field of the cache except `tbm_stops_metadata` is unchanged, and
`tbm_stops_metadata` is either unchanged (the error came from
`fetch_stops`) or already overwritten with the freshly fetched stops
metadata (the error came from `fetch_lines`). -/
theorem refresh_static_error_state (f : StaticFetchResults)
    (cache c2 : CachedNetworkData) (e : NVTError)
    (h : refresh_static_data f cache = (c2, some e)) :
    c2.tbm_lines_metadata = cache.tbm_lines_metadata ∧
    c2.tbm_gtfs_cache = cache.tbm_gtfs_cache ∧
    c2.transgironde_stops = cache.transgironde_stops ∧
    c2.transgironde_lines = cache.transgironde_lines ∧
    c2.transgironde_gtfs_cache = cache.transgironde_gtfs_cache ∧
    c2.sncf_stops = cache.sncf_stops ∧
    c2.sncf_lines = cache.sncf_lines ∧
    c2.sncf_gtfs_cache = cache.sncf_gtfs_cache ∧
    c2.last_static_update = cache.last_static_update ∧
    c2.alerts = cache.alerts ∧
    c2.real_time = cache.real_time ∧
    c2.trip_updates = cache.trip_updates ∧
    c2.last_dynamic_update = cache.last_dynamic_update ∧
    (c2.tbm_stops_metadata = cache.tbm_stops_metadata ∨
      (f.fetch_stops = .ok c2.tbm_stops_metadata ∧
        f.fetch_lines = .error e)) := by
  unfold refresh_static_data at h
  rcases hs : f.fetch_stops with es | stopsMeta <;> rw [hs] at h
  · have h1 : cache = c2 := congrArg Prod.fst h
    cases h1
    exact ⟨rfl, rfl, rfl, rfl, rfl, rfl, rfl, rfl, rfl, rfl, rfl, rfl, rfl,
      Or.inl rfl⟩
  · rcases hl : f.fetch_lines with el | linesMeta <;> rw [hl] at h
    · have h1 : ({ cache with tbm_stops_metadata := stopsMeta } :
          CachedNetworkData) = c2 := congrArg Prod.fst h
      have h2 : (some el : Option NVTError) = some e := congrArg Prod.snd h
      cases h1
      cases Option.some.inj h2
      exact ⟨rfl, rfl, rfl, rfl, rfl, rfl, rfl, rfl, rfl, rfl, rfl, rfl, rfl,
        Or.inr ⟨rfl, rfl⟩⟩
    · exact Option.noConfusion (congrArg Prod.snd h)

/-- A fetch-result set whose `fetch_lines` fails after `fetch_stops`
succeeded, for the `refresh_static_data` counterexample. -/
def fetchW : StaticFetchResults :=
  { fetch_stops := .ok [(str "s", str "n", .fin 0 0, .fin 0 0, [])],
    fetch_lines := .error (.networkError []),
    load_gtfs_data := .error (.networkError []),
    load_transgironde_data := .error (.networkError []),
    load_sncf_data := .error (.networkError []),
    now := 5 }

/-- Counterexample to C1 as stated: `refresh_static_data` returns an
error, yet the cache is not unchanged — `tbm_stops_metadata` has
already been overwritten by the time `fetch_lines()?` fails. -/
theorem refresh_static_counterexample :
    ((refresh_static_data fetchW cacheW).2 =
      some (.networkError [])) ∧
    (refresh_static_data fetchW cacheW).1.tbm_stops_metadata ≠
      cacheW.tbm_stops_metadata := by
  exact ⟨by decide, by decide⟩

/-- Witness for `refresh_static_error_state` at the concrete failing
fetch results. -/
theorem refresh_static_error_state_witness :
    refresh_static_data fetchW cacheW =
      ((refresh_static_data fetchW cacheW).1, some (.networkError [])) ∧
    (refresh_static_data fetchW cacheW).1.tbm_lines_metadata =
      cacheW.tbm_lines_metadata :=
  ⟨by decide,
    (refresh_static_error_state fetchW cacheW
      (refresh_static_data fetchW cacheW).1 (.networkError [])
      (by decide)).1⟩

/-! ## GTFSCache expiry (`GTFSCache::is_expired`) -/

/-- `GTFSCache::is_expired`, with the system clock passed explicitly:
`(now.saturating_sub(cached_at)) / 86400 >= max_age_days`. -/
def isExpired (cachedAt now maxAgeDays : Nat) : Bool :=
  (now - cachedAt) / 86400 ≥ maxAgeDays

/-- C9: with `now ≥ cached_at`, `is_expired(max_age_days)` holds iff the
number of elapsed whole days `⌊(now − cached_at)/86400⌋` is at least
`max_age_days`; at threshold 15 it is true at exactly `15*86400` elapsed
seconds and false at `15*86400 − 1`; and it is monotonic in elapsed
time. -/
theorem is_expired_spec (cachedAt now maxAgeDays : Nat)
    (hnow : cachedAt ≤ now) :
    (isExpired cachedAt now maxAgeDays = true ↔
      maxAgeDays ≤ (now - cachedAt) / 86400) ∧
    (isExpired cachedAt (cachedAt + 15 * 86400) 15 = true) ∧
    (isExpired cachedAt (cachedAt + (15 * 86400 - 1)) 15 = false) ∧
    (∀ n1 n2, now ≤ n1 → n1 ≤ n2 →
      isExpired cachedAt n1 maxAgeDays = true →
      isExpired cachedAt n2 maxAgeDays = true) := by
  refine ⟨by simp [isExpired], ?_, ?_, ?_⟩
  · simp [isExpired, Nat.add_sub_cancel_left]
  · simp only [isExpired, Nat.add_sub_cancel_left]
    norm_num
  · intro n1 n2 _ h12 h1
    simp only [isExpired, decide_eq_true_eq] at h1 ⊢
    exact le_trans h1 (Nat.div_le_div_right (Nat.sub_le_sub_right h12 _))

/-- Witness for `is_expired_spec` at a concrete instant. -/
theorem is_expired_spec_witness :
    (1000 : Nat) ≤ 1000 + 15 * 86400 ∧
      (isExpired 1000 (1000 + 15 * 86400) 15 = true ↔
        15 ≤ ((1000 + 15 * 86400) - 1000) / 86400) :=
  ⟨by norm_num, (is_expired_spec 1000 (1000 + 15 * 86400) 15 (by norm_num)).1⟩

end NVT
